import Mathlib

/-!
# dpid: the command-line and GUI front ends

A shallow embedding of `src/CUDA/main.cpp` and `src/CUDA (gui)/main.cpp`.

* Machine integers (`uint32_t`, `int`) are naturals / integers with explicit wrapping.
* `float` and `double` are IEEE-754 binary32 / binary64 values: a finite value is the
  rational number it denotes, and every arithmetic operation rounds its exact result to
  the format (round to nearest, ties to even).  The sign of zero is not tracked.
* `main` is a function from its inputs (argument vector, image decoder, key presses) to
  the list of externally visible actions it performs and its termination status.
-/

namespace Dpid

/-! ## Floating point -/

/-- A floating-point value: finite, signed infinity or NaN. -/
inductive Fp where
  | fin (q : ℚ)
  | inf (neg : Bool)
  | nan
deriving DecidableEq

/-- An IEEE-754 binary interchange format: precision in bits and exponent range. -/
structure Fmt where
  prec : ℕ
  emin : ℤ
  emax : ℤ

/-- The format of C `float`. -/
def binary32 : Fmt := ⟨24, -126, 127⟩

/-- The format of C `double`. -/
def binary64 : Fmt := ⟨53, -1022, 1023⟩

/-- Floor of the binary logarithm of a natural number, by at most `fuel` halvings. -/
def log2Fuel : ℕ → ℕ → ℕ
  | 0, _ => 0
  | fuel + 1, n => if n < 2 then 0 else log2Fuel fuel (n / 2) + 1

/-- Floor of the binary logarithm of `|q|`, for `q ≠ 0`. -/
def flog2 (q : ℚ) : ℤ :=
  let k : ℤ := (log2Fuel q.num.natAbs q.num.natAbs : ℤ) - (log2Fuel q.den q.den : ℤ)
  if (2 : ℚ) ^ k ≤ |q| then k else k - 1

/-- Nearest integer, ties to the even one. -/
def rne (q : ℚ) : ℤ :=
  let f := ⌊q⌋
  let r := q - f
  if r < 1 / 2 then f
  else if 1 / 2 < r then f + 1
  else if f % 2 = 0 then f else f + 1

/-- The unit in the last place used to round `q`: `2 ^ (e - (prec - 1))`, where `e` is the
binary exponent of `q`, not below `emin` (subnormal range). -/
def Fmt.ulp (f : Fmt) (q : ℚ) : ℚ :=
  (2 : ℚ) ^ (max (flog2 q) f.emin - ((f.prec : ℤ) - 1))

/-- Round to nearest, ties to even, with unbounded exponent above. -/
def Fmt.roundFin (f : Fmt) (q : ℚ) : ℚ :=
  if q = 0 then 0 else rne (q / f.ulp q) * f.ulp q

/-- Round an exact result to the format; overflow gives infinity. -/
def Fmt.round (f : Fmt) (q : ℚ) : Fp :=
  let r := f.roundFin q
  if (2 : ℚ) ^ (f.emax + 1) ≤ |r| then Fp.inf (decide (q < 0)) else Fp.fin r

/-- Floating-point division `a / b` in format `f`; a zero divisor counts as `+0`. -/
def Fp.div (f : Fmt) : Fp → Fp → Fp
  | .fin a, .fin b =>
    if b = 0 then (if a = 0 then .nan else .inf (decide (a < 0))) else f.round (a / b)
  | .fin _, .inf _ => .fin 0
  | .inf s, .fin b => .inf (xor s (decide (b < 0)))
  | .inf _, .inf _ => .nan
  | .nan, _ => .nan
  | _, .nan => .nan

/-- Floating-point multiplication `a * b` in format `f`. -/
def Fp.mul (f : Fmt) : Fp → Fp → Fp
  | .fin a, .fin b => f.round (a * b)
  | .fin a, .inf s => if a = 0 then .nan else .inf (xor s (decide (a < 0)))
  | .inf s, .fin b => if b = 0 then .nan else .inf (xor s (decide (b < 0)))
  | .inf s, .inf t => .inf (xor s t)
  | .nan, _ => .nan
  | _, .nan => .nan

/-- Nearest integer, halves away from zero. -/
def roundHalfAway (q : ℚ) : ℤ :=
  if 0 ≤ q then ⌊q + 1 / 2⌋ else -⌊-q + 1 / 2⌋

/-- C `std::round` on a `double`. -/
def Fp.cround : Fp → Fp
  | .fin q => .fin (roundHalfAway q)
  | x => x

/-- The conversion `(uint32_t) x` of a floating value: truncation towards zero, defined
only when the truncated value is representable; `none` is undefined behaviour. -/
def Fp.toU32 : Fp → Option ℕ
  | .fin q => if -1 < q ∧ q < 4294967296 then some ⌊q⌋.toNat else none
  | _ => none

/-- The conversion `(double) n` of an integer. -/
def toF64 (n : ℤ) : Fp := binary64.round n

/-- The conversion `(float) n` of an integer. -/
def toF32 (n : ℤ) : Fp := binary32.round n

/-- The conversion `(float) x` of a `double`. -/
def Fp.toF32 : Fp → Fp
  | .fin q => binary32.round q
  | x => x

/-- The C comparison `x >= 0`. -/
def Fp.nonneg : Fp → Prop
  | .fin q => 0 ≤ q
  | .inf neg => neg = false
  | .nan => False

instance (x : Fp) : Decidable x.nonneg := by
  cases x <;> unfold Fp.nonneg <;> infer_instance

/-- The C comparison `x < 1`. -/
def Fp.ltOne : Fp → Prop
  | .fin q => q < 1
  | .inf neg => neg = true
  | .nan => False

instance (x : Fp) : Decidable x.ltOne := by
  cases x <;> unfold Fp.ltOne <;> infer_instance

/-- The conversion `(uint32_t) z` of an `int`. -/
def toU32 (z : ℤ) : ℕ := (z % 4294967296).toNat

/-- The conversion to `int` of a `long` or of a `uint32_t`: the low 32 bits, two's
complement. -/
def wrapInt (z : ℤ) : ℤ := (z + 2147483648) % 4294967296 - 2147483648

/-! ## C library text conversions -/

/-- C `isspace` in the "C" locale. -/
def isspace (c : Char) : Bool :=
  c.toNat = 32 || (9 ≤ c.toNat && c.toNat ≤ 13)

/-- Drop leading white space. -/
def skipSpace : List Char → List Char
  | [] => []
  | c :: cs => if isspace c then skipSpace cs else c :: cs

/-- Split an optional sign off: `true` for a leading minus. -/
def readSign : List Char → Bool × List Char
  | '-' :: cs => (true, cs)
  | '+' :: cs => (false, cs)
  | cs => (false, cs)

/-- The value of a digit in base 10 or 16. -/
def digitVal (base : ℕ) (c : Char) : Option ℕ :=
  if 48 ≤ c.toNat ∧ c.toNat ≤ 57 then some (c.toNat - 48)
  else if base = 16 ∧ 97 ≤ c.toNat ∧ c.toNat ≤ 102 then some (c.toNat - 87)
  else if base = 16 ∧ 65 ≤ c.toNat ∧ c.toNat ≤ 70 then some (c.toNat - 55)
  else none

/-- Consume leading digits: accumulated value, number of digits read, remaining text. -/
def readDigits (base : ℕ) : ℕ → ℕ → List Char → ℕ × ℕ × List Char
  | acc, cnt, [] => (acc, cnt, [])
  | acc, cnt, c :: cs =>
    match digitVal base c with
    | some d => readDigits base (acc * base + d) (cnt + 1) cs
    | none => (acc, cnt, c :: cs)

/-- C `atoi`, as `(int) strtol(s, NULL, 10)`: white space, optional sign, decimal digits;
anything after the digits is ignored and no digits give 0.  A value outside `long`
saturates and the conversion to `int` keeps the low 32 bits (ISO C leaves the
out-of-range case undefined; this is what glibc does). -/
def atoi (s : String) : ℤ :=
  let (neg, ds) := readSign (skipSpace s.toList)
  let v : ℤ := (readDigits 10 0 0 ds).1
  let l : ℤ := if neg then max (-v) (-9223372036854775808) else min v 9223372036854775807
  wrapInt l

/-- The digit sequence `digits [. digits]` of a floating literal: its exact value and the
remaining text, or `none` when it holds no digit. -/
def readMantissa (base : ℕ) (cs : List Char) : Option (ℚ × List Char) :=
  let (ip, n1, r1) := readDigits base 0 0 cs
  match r1 with
  | '.' :: r2 =>
    let (fp, n2, r3) := readDigits base 0 0 r2
    if n1 + n2 = 0 then none else some ((ip : ℚ) + (fp : ℚ) / (base : ℚ) ^ n2, r3)
  | _ => if n1 = 0 then none else some ((ip : ℚ), r1)

/-- The exponent part `e [sign] digits` (or `p ...` for hexadecimal): 0 when absent or
without digits. -/
def readExponent (lower upper : Char) : List Char → ℤ
  | [] => 0
  | m :: r =>
    if m = lower ∨ m = upper then
      let (neg, ds) := readSign r
      let (v, n, _) := readDigits 10 0 0 ds
      if n = 0 then 0 else if neg then -(v : ℤ) else (v : ℤ)
    else 0

/-- Does the text start, ignoring case, with the given lower-case word. -/
def startsWithCI : List Char → List Char → Bool
  | [], _ => true
  | _ :: _, [] => false
  | w :: ws, c :: cs => (c.toLower = w) && startsWithCI ws cs

/-- The exact value of the longest floating literal at the start of the text (decimal or
hexadecimal), `none` when there is none. -/
def readNumber (cs : List Char) : Option ℚ :=
  let hex : Option ℚ :=
    match cs with
    | '0' :: x :: r =>
      if x = 'x' ∨ x = 'X' then
        (readMantissa 16 r).map fun m => m.1 * (2 : ℚ) ^ readExponent 'p' 'P' m.2
      else none
    | _ => none
  match hex with
  | some v => some v
  | none => (readMantissa 10 cs).map fun m => m.1 * (10 : ℚ) ^ readExponent 'e' 'E' m.2

/-- C `atof`, as `strtod(s, NULL)` in the "C" locale: white space, optional sign, then
`inf`/`infinity`, `nan`, or a decimal or hexadecimal floating literal, correctly rounded
to `double`; anything after it is ignored and no literal gives 0. -/
def atof (s : String) : Fp :=
  let (neg, r) := readSign (skipSpace s.toList)
  if startsWithCI ['i', 'n', 'f'] r then Fp.inf neg
  else if startsWithCI ['n', 'a', 'n'] r then Fp.nan
  else
    match readNumber r with
    | some v => binary64.round (if neg then -v else v)
    | none => Fp.fin 0

/-! ## Shared declarations (`struct Params`) -/

/-- The parameter block handed to `run`. -/
structure Params where
  oWidth : ℕ
  oHeight : ℕ
  iWidth : ℕ
  iHeight : ℕ
  pWidth : Fp
  pHeight : Fp
  lambda : Fp
deriving DecidableEq

/-- The header of a decoded image (`cv::Mat`): its `int` fields `cols` and `rows`. -/
structure Mat where
  cols : ℤ
  rows : ℤ
deriving DecidableEq

/-- The images the programs handle. -/
inductive Img where
  | iImage | oImage | oImage1 | oImage2 | oImage3 | display
deriving DecidableEq

/-- The tail of an output file name: `_<lambda>.png` or `_bicubic.png`. -/
inductive NameTag where
  | lambda (l : Fp)
  | bicubic
deriving DecidableEq

/-- Externally visible actions of the programs, in program order. -/
inductive Event where
  /-- The usage text on standard output. -/
  | usage
  /-- A line on standard error. -/
  | cerr (msg : String)
  /-- The call `cv::imread(name)`. -/
  | imread (name : String)
  /-- The construction `cv::Mat(rows, cols, CV_8UC3)` of an image buffer. -/
  | alloc (img : Img) (rows cols : ℕ)
  /-- The call `run(i, iImage.data, out.data)`. -/
  | run (i : Params) (out : Img)
  /-- The call `cv::imwrite` of an image to `<iName>_<w>x<h><tag>`, and the line
  `Output filename: ...` that follows it. -/
  | imwrite (iName : String) (w h : ℕ) (tag : NameTag) (img : Img)
  /-- The call `cv::namedWindow`. -/
  | namedWindow
  /-- The call `cv::createTrackbar(name, ..., max)`. -/
  | createTrackbar (name : String) (max : ℤ)
  /-- The call `cv::imshow`. -/
  | imshow (img : Img)
  /-- The call `cv::resize(src, dst, ...)`; `cubic` tells the interpolation. -/
  | resize (src dst : Img) (cubic : Bool)
  /-- The call `cv::destroyWindow`. -/
  | destroyWindow
deriving DecidableEq

/-- How an execution ends. -/
inductive Status where
  /-- The process terminated with this status (`exit(n)` or `return n` from `main`). -/
  | exit (code : ℕ)
  /-- The execution reached an operation whose behaviour C++ leaves undefined. -/
  | undefined
  /-- An exception thrown inside OpenCV left `main`, which has no handler
  (`std::terminate`). -/
  | terminated
  /-- The GUI is blocked in `cv::waitKey`: no further key press was supplied. -/
  | waiting
deriving DecidableEq

/-- An execution: the actions performed and how it ended. -/
structure Outcome where
  trace : List Event
  status : Status
deriving DecidableEq

/-- What the programs take from their environment. -/
structure Env where
  /-- The image decoder `cv::imread`: `none` stands for a `cv::Mat` without data. -/
  imread : String → Option Mat
  /-- Whether the allocator provides the pixel memory of the buffer `img` of `rows` by
  `cols` pixels. -/
  canAlloc : Img → ℕ → ℕ → Bool

/-- Does the construction `cv::Mat(rows, cols, CV_8UC3)` from `uint32_t` arguments
succeed.  The constructor takes `int`s: an argument that converts to a negative `int`
makes it throw, and so does pixel memory the allocator cannot provide; a buffer without
pixels needs no memory. -/
def matFits (env : Env) (img : Img) (rows cols : ℕ) : Bool :=
  decide (0 ≤ wrapInt (rows : ℤ)) && decide (0 ≤ wrapInt (cols : ℤ)) &&
    (decide (rows * cols = 0) || env.canAlloc img rows cols)

/-! ## Code common to both front ends

The two `main` functions share, statement for statement, the reading of the width and
height arguments, the aspect-ratio step and the patch-size step. -/

/-- The requested output width: `argv[2]`, or 128 when absent (`argc < 3`). -/
def readWidth (argv : List String) : ℕ :=
  if argv.length < 3 then 128 else toU32 (atoi (argv.getD 2 ""))

/-- The requested output height: `argv[3]`, or 0 when absent (`argc < 4`). -/
def readHeight (argv : List String) : ℕ :=
  if argv.length < 4 then 0 else toU32 (atoi (argv.getD 3 ""))

/-- The expression `(uint32_t)std::round((known / (double)srcKnown) * srcOther)`. -/
def deriveDim (known srcKnown srcOther : ℕ) : Option ℕ :=
  (Fp.mul binary64 (Fp.div binary64 (toF64 known) (toF64 srcKnown)) (toF64 srcOther)).cround.toU32

/-- "calc width/height according to aspect ratio": the two `if` statements, in order.
`none` when a conversion to `uint32_t` is undefined. -/
def calcSize (oWidth oHeight iWidth iHeight : ℕ) : Option (ℕ × ℕ) :=
  match (if oWidth = 0 then deriveDim oHeight iHeight iWidth else some oWidth) with
  | none => none
  | some w =>
    match (if oHeight = 0 then deriveDim w iWidth iHeight else some oHeight) with
    | none => none
    | some h => some (w, h)

/-- "calc patch size": the expression `in / (float)out`. -/
def calcPatch (inDim outDim : ℕ) : Fp :=
  Fp.div binary32 (toF32 inDim) (toF32 outDim)

/-! ## `src/CUDA/main.cpp` -/

namespace Cli

/-- The `lambda` argument: `(float) atof(argv[4])`, or `1.0f` when absent (`argc < 5`). -/
def readLambda (argv : List String) : Fp :=
  if argv.length < 5 then Fp.fin 1 else (atof (argv.getD 4 "")).toF32

/-- `int main(int argc, char** argv)` of the command-line program, in the environment
`env`.  After the call of `run` the execution shown is the one in which `run` and
`cv::imwrite` return. -/
def main (env : Env) (argv : List String) : Outcome :=
  if argv.length < 2 ∨ 5 < argv.length then ⟨[.usage], .exit 1⟩
  else
    let iName := argv.getD 1 ""
    if readWidth argv = 0 ∧ readHeight argv = 0 then
      ⟨[.cerr "either width or height has to be non-zero!"], .exit 1⟩
    else
      match env.imread iName with
      | none => ⟨[.imread iName, .cerr "unable to read image"], .exit 1⟩
      | some iImage =>
        let iWidth := toU32 iImage.cols
        let iHeight := toU32 iImage.rows
        match calcSize (readWidth argv) (readHeight argv) iWidth iHeight with
        | none => ⟨[.imread iName], .undefined⟩
        | some (oWidth, oHeight) =>
          if matFits env .oImage oHeight oWidth = false then
            ⟨[.imread iName], .terminated⟩
          else
            let i : Params :=
              { oWidth := oWidth, oHeight := oHeight, iWidth := iWidth, iHeight := iHeight,
                pWidth := calcPatch iWidth oWidth, pHeight := calcPatch iHeight oHeight,
                lambda := readLambda argv }
            ⟨[.imread iName, .alloc .oImage oHeight oWidth, .run i .oImage,
              .imwrite iName oWidth oHeight (.lambda i.lambda) .oImage], .exit 0⟩

end Cli

/-! ## `src/CUDA (gui)/main.cpp` -/

namespace Gui

/-- One iteration's input: the value `cv::waitKey(0)` returns and what
`cv::getTrackbarPos` reports for the two sliders at that moment. -/
structure KeyPress where
  key : ℤ
  lambda1 : ℤ
  lambda2 : ℤ
deriving DecidableEq

/-- The character code of `(char) key`, as a value in `[0, 256)`: the comparisons of the
loop depend on nothing else. -/
def keyChar (key : ℤ) : ℤ := key % 256

/-- The upper end of the sliders: `atoi(argv[4]) * 100` when `argc == 5`, else 100.  The
`int` product wraps (two's complement, as compiled). -/
def readMaxLambda (argv : List String) : ℤ :=
  if argv.length = 5 then wrapInt (atoi (argv.getD 4 "") * 100) else 100

/-- The slider value as a `float`: `(float) pos / 100`. -/
def sliderLambda (pos : ℤ) : Fp := Fp.div binary32 (toF32 pos) (toF32 100)

/-- Put actions in front of the rest of an execution. -/
def andThen (evs : List Event) (o : Outcome) : Outcome := ⟨evs ++ o.trace, o.status⟩

/-- The actions of the `s` key, by the image currently shown. -/
def save (iName : String) (i : Params) (currentImage : ℕ) : List Event :=
  if currentImage = 2 then [.imwrite iName i.oWidth i.oHeight (.lambda i.lambda) .oImage1]
  else if currentImage = 3 then [.imwrite iName i.oWidth i.oHeight (.lambda i.lambda) .oImage2]
  else if currentImage = 4 then [.imwrite iName i.oWidth i.oHeight .bicubic .oImage3]
  else []

/-- The `for (;;)` loop over key presses, from the current parameter block and
`currentImage`. -/
def loop (iName : String) : Params → ℕ → List KeyPress → Outcome
  | _, _, [] => ⟨[], .waiting⟩
  | i, currentImage, k :: ks =>
    let c := keyChar k.key
    if c = 49 then
      andThen [.imshow .iImage] (loop iName i 1 ks)
    else if c = 50 then
      let i2 : Params := { i with lambda := sliderLambda k.lambda1 }
      andThen [.run i2 .oImage1, .resize .oImage1 .display false, .imshow .display]
        (loop iName i2 2 ks)
    else if c = 51 then
      let i3 : Params := { i with lambda := sliderLambda k.lambda2 }
      andThen [.run i3 .oImage2, .resize .oImage2 .display false, .imshow .display]
        (loop iName i3 3 ks)
    else if c = 52 then
      andThen [.resize .iImage .oImage3 true, .resize .oImage3 .display false, .imshow .display]
        (loop iName i 4 ks)
    else if c = 115 ∨ c = 83 then
      andThen (save iName i currentImage) (loop iName i currentImage ks)
    else if c = 27 then
      ⟨[.destroyWindow], .exit 0⟩
    else loop iName i currentImage ks

/-- `int main(int argc, char** argv)` of the GUI program, in the environment `env` and
with the key presses `keys` the user supplies.  The calls of `run` and of the display
functions are taken to return. -/
def main (env : Env) (keys : List KeyPress) (argv : List String) : Outcome :=
  if argv.length < 2 ∨ 5 < argv.length then ⟨[.usage], .exit 1⟩
  else
    let iName := argv.getD 1 ""
    let max_lambda := readMaxLambda argv
    if readWidth argv = 0 ∧ readHeight argv = 0 then
      ⟨[.cerr "either width or height has to be non-zero!"], .exit 1⟩
    else
      match env.imread iName with
      | none => ⟨[.imread iName, .cerr "unable to read image"], .exit 1⟩
      | some iImage =>
        let iWidth := toU32 iImage.cols
        let iHeight := toU32 iImage.rows
        match calcSize (readWidth argv) (readHeight argv) iWidth iHeight with
        | none => ⟨[.imread iName], .undefined⟩
        | some (oWidth, oHeight) =>
          if matFits env .oImage1 oHeight oWidth = false then
            ⟨[.imread iName], .terminated⟩
          else if matFits env .oImage2 oHeight oWidth = false then
            ⟨[.imread iName, .alloc .oImage1 oHeight oWidth], .terminated⟩
          else if matFits env .oImage3 oHeight oWidth = false then
            ⟨[.imread iName, .alloc .oImage1 oHeight oWidth, .alloc .oImage2 oHeight oWidth],
              .terminated⟩
          else if matFits env .display iHeight iHeight = false then
            ⟨[.imread iName, .alloc .oImage1 oHeight oWidth, .alloc .oImage2 oHeight oWidth,
              .alloc .oImage3 oHeight oWidth], .terminated⟩
          else
            let i : Params :=
              { oWidth := oWidth, oHeight := oHeight, iWidth := iWidth, iHeight := iHeight,
                pWidth := calcPatch iWidth oWidth, pHeight := calcPatch iHeight oHeight,
                lambda := Fp.fin 0 }
            andThen
              [.imread iName, .alloc .oImage1 oHeight oWidth, .alloc .oImage2 oHeight oWidth,
                .alloc .oImage3 oHeight oWidth, .alloc .display iHeight iHeight, .namedWindow,
                .createTrackbar "lambda1" max_lambda, .createTrackbar "lambda2" max_lambda,
                .imshow .iImage]
              (loop iName i 1 keys)

end Gui

/-! ## Vocabulary of the properties -/

/-- Loading an image, allocating a buffer and invoking `run`. -/
def Event.isWork : Event → Bool
  | .imread _ => true
  | .alloc _ _ _ => true
  | .run _ _ => true
  | _ => false

/-- An environment that holds one image file, of the given size, and has memory for
every buffer. -/
def oneImage (name : String) (cols rows : ℤ) : Env :=
  { imread := fun s => if s = name then some ⟨cols, rows⟩ else none
    canAlloc := fun _ _ _ => true }

/-- The command-line program, started with `argv` in `env`, hands the request `w`, `h`,
`lambda` for the file `name` to `run`: whenever the request passes the both-zero check,
the file is readable, the size resolution is defined and the output buffer can be built,
`run` is invoked once, with the sizes resolved from `w` and `h`, with `lambda`, and with
nothing else. -/
def Cli.handsToRun (env : Env) (argv : List String) (name : String) (w h : ℕ)
    (lambda : Fp) : Prop :=
  ∀ (iImage : Mat) (oW oH : ℕ), env.imread name = some iImage → ¬ (w = 0 ∧ h = 0) →
    calcSize w h (toU32 iImage.cols) (toU32 iImage.rows) = some (oW, oH) →
    matFits env .oImage oH oW = true →
    Event.run ⟨oW, oH, toU32 iImage.cols, toU32 iImage.rows,
        calcPatch (toU32 iImage.cols) oW, calcPatch (toU32 iImage.rows) oH, lambda⟩ .oImage
      ∈ (Cli.main env argv).trace ∧
    ∀ (i : Params) (out : Img), Event.run i out ∈ (Cli.main env argv).trace →
      i = ⟨oW, oH, toU32 iImage.cols, toU32 iImage.rows,
        calcPatch (toU32 iImage.cols) oW, calcPatch (toU32 iImage.rows) oH, lambda⟩ ∧
      out = .oImage

/-- The derived dimension as the specification words it, in exact arithmetic:
`round(knownOut / sourceDim_of_known_axis * sourceDim_of_other_axis)`, nearest integer,
halves away from zero. -/
def specDerive (known srcKnown srcOther : ℕ) : ℤ :=
  roundHalfAway ((known : ℚ) / (srcKnown : ℚ) * (srcOther : ℚ))

/-- The value lies exactly half-way between two consecutive integers. -/
def isHalfInteger (x : ℚ) : Prop := Int.fract x = 1 / 2

instance (x : ℚ) : Decidable (isHalfInteger x) := by
  unfold isHalfInteger; infer_instance

/-- The derived dimension `r` is the specification's rounded value, except that on an
exact tie it may be either of the two nearest integers. -/
def roundsUpToTie (r : ℕ) (known srcKnown srcOther : ℕ) : Prop :=
  (¬ isHalfInteger ((known : ℚ) / (srcKnown : ℚ) * (srcOther : ℚ)) →
    (r : ℤ) = specDerive known srcKnown srcOther) ∧
  (isHalfInteger ((known : ℚ) / (srcKnown : ℚ) * (srcOther : ℚ)) →
    (r : ℤ) = specDerive known srcKnown srcOther ∨
    (r : ℤ) = specDerive known srcKnown srcOther - 1)

/-- The lower end of the patch of output index `ox` on one axis, `ox * p` (the Patch of
section 3 of the specification, for the patch size `p`). -/
def patchLo (p : ℚ) (ox : ℕ) : ℚ := (ox : ℚ) * p

/-- The upper end of the patch of output index `ox` on one axis, `(ox + 1) * p`. -/
def patchHi (p : ℚ) (ox : ℕ) : ℚ := ((ox : ℚ) + 1) * p

/-- The point `(x, y)` lies in the patch of the output pixel `(ox, oy)`. -/
def inPatch (pw ph : ℚ) (ox oy : ℕ) (x y : ℚ) : Prop :=
  patchLo pw ox ≤ x ∧ x < patchHi pw ox ∧ patchLo ph oy ≤ y ∧ y < patchHi ph oy

/-- Distinct patches of the output grid share no point. -/
def patchesDisjoint (pw ph : ℚ) (oW oH : ℕ) : Prop :=
  ∀ ox oy ox' oy' : ℕ, ox < oW → oy < oH → ox' < oW → oy' < oH → (ox, oy) ≠ (ox', oy') →
    ∀ x y : ℚ, ¬ (inPatch pw ph ox oy x y ∧ inPatch pw ph ox' oy' x y)

/-- The sum of the areas of all patches of the output grid. -/
def patchAreaSum (pw ph : ℚ) (oW oH : ℕ) : ℚ :=
  ∑ ox ∈ Finset.range oW, ∑ oy ∈ Finset.range oH,
    (patchHi pw ox - patchLo pw ox) * (patchHi ph oy - patchLo ph oy)

/-- The patches cover the source exactly: the last ones end at the source width and
height, and the areas sum to the source area. -/
def patchesCover (pw ph : ℚ) (iW iH oW oH : ℕ) : Prop :=
  patchHi pw (oW - 1) = iW ∧ (oW : ℚ) * pw = iW ∧
  patchHi ph (oH - 1) = iH ∧ (oH : ℚ) * ph = iH ∧
  patchAreaSum pw ph oW oH = (iW : ℚ) * iH

/-- The patch sizes of a parameter block are finite and positive and its patches are
pairwise disjoint. -/
def patchesApart (i : Params) : Prop :=
  ∃ pw ph : ℚ, i.pWidth = Fp.fin pw ∧ i.pHeight = Fp.fin ph ∧ 0 < pw ∧ 0 < ph ∧
    patchesDisjoint pw ph i.oWidth i.oHeight

/-- The patches of a parameter block tile the source exactly: they are pairwise disjoint,
the last ones end at the source width and height, and the areas sum to the source area. -/
def tilesSource (i : Params) : Prop :=
  ∃ pw ph : ℚ, i.pWidth = Fp.fin pw ∧ i.pHeight = Fp.fin ph ∧
    patchesDisjoint pw ph i.oWidth i.oHeight ∧
    patchesCover pw ph i.iWidth i.iHeight i.oWidth i.oHeight

/-- The exact quotient `inDim / outDim` is a `float`. -/
def quotientIsFloat (inDim outDim : ℕ) : Prop :=
  binary32.roundFin ((inDim : ℚ) / (outDim : ℚ)) = (inDim : ℚ) / (outDim : ℚ)

instance (inDim outDim : ℕ) : Decidable (quotientIsFloat inDim outDim) := by
  unfold quotientIsFloat; infer_instance


/-! ## The reduction `run`

`run` is declared in both front ends and defined elsewhere (the CUDA kernels); the
definitions of this section follow sections 3 and 4.2 to 4.6 of the specification, in the
real-valued domain the specification prescribes. -/

noncomputable section

/-- Modelled from the spec: a colour, "a triple of channel intensities" of section 3; the
definition of `run` and of its data is missing from the sources. -/
abbrev Color := Fin 3 → ℝ

/-- Modelled from the spec: the image of section 3, "a rectangular buffer of RGB color
samples with explicit width and height" (the buffers behind `run`'s pointers, missing from
the sources); `px x y` is the sample in column `x` of row `y`. -/
structure Image where
  width : ℕ
  height : ℕ
  px : ℕ → ℕ → Color

/-- Modelled from the spec: the `Params` of section 3 as `run` reads them, with real-valued
patch size and lambda (the reading side of `run` is missing from the sources). -/
structure SpecParams where
  outWidth : ℕ
  outHeight : ℕ
  inWidth : ℕ
  inHeight : ℕ
  patchWidth : ℝ
  patchHeight : ℝ
  lambda : ℝ

/-- Modelled from the spec: one axis of the patch rectangle of section 4.2 (the Patch
Sampler inside `run` is missing from the sources), `[o * size, (o + 1) * size)` clamped to
`[0, inDim)`. -/
def patchBounds (size : ℝ) (inDim o : ℕ) : ℝ × ℝ :=
  (max 0 ((o : ℝ) * size), min (((o : ℝ) + 1) * size) (inDim : ℝ))

/-- Modelled from the spec: the length of the intersection of the unit interval
`[s, s + 1)` with `[lo, hi)`, one factor of the overlap weight of section 3 (computed
inside `run`, missing from the sources). -/
def overlap1 (lo hi : ℝ) (s : ℕ) : ℝ :=
  max 0 (min hi ((s : ℝ) + 1) - max lo (s : ℝ))

/-- Modelled from the spec: the overlap weight of section 3 (computed inside `run`, missing
from the sources), "the area of intersection between the unit pixel square and the patch
rectangle". -/
def overlapWeight (p : SpecParams) (ox oy sx sy : ℕ) : ℝ :=
  overlap1 (patchBounds p.patchWidth p.inWidth ox).1 (patchBounds p.patchWidth p.inWidth ox).2 sx
    * overlap1 (patchBounds p.patchHeight p.inHeight oy).1
        (patchBounds p.patchHeight p.inHeight oy).2 sy

/-- Modelled from the spec: the Patch Sampler of section 4.2 (inside `run`, missing from
the sources): the `(colour, overlapWeight)` pairs of the source pixels that intersect the
patch of `(ox, oy)` with nonzero area. -/
def patchSamples (p : SpecParams) (src : Image) (ox oy : ℕ) : List (Color × ℝ) :=
  (List.range p.inHeight).flatMap fun sy =>
    (List.range p.inWidth).filterMap fun sx =>
      if 0 < overlapWeight p ox oy sx sy then some (src.px sx sy, overlapWeight p ox oy sx sy)
      else none

/-- Modelled from the spec: the sum `Σ weight_i * color_i` of sections 4.3 and 4.5, per
channel (inside `run`, missing from the sources). -/
def weightedSum (l : List (Color × ℝ)) : Color :=
  fun ch => (l.map fun s => s.2 * s.1 ch).sum

/-- Modelled from the spec: the sum `Σ weight_i` of sections 4.3 and 4.5 (inside `run`,
missing from the sources). -/
def totalWeight (l : List (Color × ℝ)) : ℝ :=
  (l.map fun s => s.2).sum

/-- Modelled from the spec: the Guide Estimator of section 4.3 (inside `run`, missing from
the sources), `mean = Σ(weight_i * color_i) / Σ(weight_i)` per channel. -/
def guideMean (l : List (Color × ℝ)) : Color :=
  fun ch => weightedSum l ch / totalWeight l

/-- Modelled from the spec: the deviation of section 4.4 (inside `run`, missing from the
sources), the Euclidean norm over channels of `color_i - mean`. -/
def deviation (c mean : Color) : ℝ :=
  Real.sqrt (∑ ch : Fin 3, (c ch - mean ch) ^ 2)

/-- Modelled from the spec: the Importance Weighter of section 4.4 (inside `run`, missing
from the sources), `importance_i = weight_i * deviation ^ lambda`, with `0 ^ 0 = 1`. -/
def importance (lambda : ℝ) (mean : Color) (l : List (Color × ℝ)) : List (Color × ℝ) :=
  l.map fun s => (s.1, s.2 * deviation s.1 mean ^ lambda)

/-- Modelled from the spec: the Reducer of section 4.5 before the final write (inside
`run`, missing from the sources), `Σ(importance_i * color_i) / Σ(importance_i)`, with the
guide mean substituted when `Σ(importance_i)` is within the tolerance `tol` of 0. -/
def reduce (tol : ℝ) (mean : Color) (l : List (Color × ℝ)) : Color :=
  if |totalWeight l| ≤ tol then mean else fun ch => weightedSum l ch / totalWeight l

/-- Modelled from the spec: the final write of sections 3 and 4.5 (inside `run`, missing
from the sources), "rounded/clamped to the output image's numeric range", here 0 to 255. -/
def quantize (x : ℝ) : ℝ :=
  max 0 (min 255 ((round x : ℤ) : ℝ))

/-- Modelled from the spec: one output pixel, sections 4.2 to 4.5 in order (the body of
`run`, missing from the sources). -/
def outputPixel (tol : ℝ) (p : SpecParams) (src : Image) (ox oy : ℕ) : Color :=
  fun ch =>
    quantize (reduce tol (guideMean (patchSamples p src ox oy))
      (importance p.lambda (guideMean (patchSamples p src ox oy)) (patchSamples p src ox oy)) ch)

/-- Modelled from the spec: `run`, the Dispatcher of section 4.6 (its definition is missing
from the sources): every output coordinate in `[0, outWidth) x [0, outHeight)` is computed
independently and written once. -/
def run (tol : ℝ) (p : SpecParams) (src : Image) : Image :=
  { width := p.outWidth
    height := p.outHeight
    px := fun ox oy =>
      if ox < p.outWidth ∧ oy < p.outHeight then outputPixel tol p src ox oy else 0 }

/-- Modelled from the spec: the plain area-weighted box-filter reduction of section 8, the
"reference implementation computed independently from 4.3 alone": each output pixel is the
overlap-weighted mean colour of its patch, written like any output pixel. -/
def boxFilter (p : SpecParams) (src : Image) : Image :=
  { width := p.outWidth
    height := p.outHeight
    px := fun ox oy =>
      if ox < p.outWidth ∧ oy < p.outHeight then
        fun ch => quantize (guideMean (patchSamples p src ox oy) ch)
      else 0 }

/-- The 3 x 1 image black, white, black of section 8. -/
def blackWhiteBlack : Image :=
  { width := 3
    height := 1
    px := fun x _ _ => if x = 1 then 255 else 0 }

end


/-! ## Facts about the floating-point model -/

theorem log2Fuel_spec (fuel n : ℕ) (h1 : 0 < n) (h2 : n ≤ fuel) :
    2 ^ log2Fuel fuel n ≤ n ∧ n < 2 ^ (log2Fuel fuel n + 1) := by
  induction fuel generalizing n with
  | zero => omega
  | succ f ih =>
    unfold log2Fuel
    split
    · simp; omega
    · have h := ih (n / 2) (by omega) (by omega)
      rw [pow_succ, pow_succ]
      rw [pow_succ] at h
      omega

theorem two_zpow_pos (k : ℤ) : (0 : ℚ) < 2 ^ k := zpow_pos (by norm_num) k

theorem flog2_spec (q : ℚ) (hq : q ≠ 0) :
    (2 : ℚ) ^ flog2 q ≤ |q| ∧ |q| < (2 : ℚ) ^ (flog2 q + 1) := by
  have hn : 0 < q.num.natAbs := Int.natAbs_pos.mpr (Rat.num_ne_zero.mpr hq)
  have hd : 0 < q.den := q.den_pos
  obtain ⟨hn1, hn2⟩ := log2Fuel_spec _ _ hn le_rfl
  obtain ⟨hd1, hd2⟩ := log2Fuel_spec _ _ hd le_rfl
  have habs : |q| = (q.num.natAbs : ℚ) / (q.den : ℚ) := by
    rw [Rat.abs_def, Rat.divInt_eq_div]; simp [Nat.cast_natAbs]
  have hdq : (0 : ℚ) < q.den := by exact_mod_cast hd
  have hn1q : (2 : ℚ) ^ log2Fuel q.num.natAbs q.num.natAbs ≤ q.num.natAbs := by exact_mod_cast hn1
  have hn2q : (q.num.natAbs : ℚ) < 2 ^ (log2Fuel q.num.natAbs q.num.natAbs + 1) := by
    exact_mod_cast hn2
  have hd1q : (2 : ℚ) ^ log2Fuel q.den q.den ≤ q.den := by exact_mod_cast hd1
  have hd2q : (q.den : ℚ) < 2 ^ (log2Fuel q.den q.den + 1) := by exact_mod_cast hd2
  have hk : ∀ j : ℤ, (2 : ℚ) ^ ((log2Fuel q.num.natAbs q.num.natAbs : ℤ)
      - (log2Fuel q.den q.den : ℤ) + j)
      = 2 ^ log2Fuel q.num.natAbs q.num.natAbs / 2 ^ log2Fuel q.den q.den * 2 ^ j := by
    intro j
    rw [zpow_add₀ (by norm_num), zpow_sub₀ (by norm_num), zpow_natCast, zpow_natCast]
  have hpn : (0 : ℚ) < 2 ^ log2Fuel q.num.natAbs q.num.natAbs := by positivity
  have hpd : (0 : ℚ) < 2 ^ log2Fuel q.den q.den := by positivity
  unfold flog2
  simp only
  split
  · rename_i h
    refine ⟨h, ?_⟩
    rw [hk 1, habs, div_mul_eq_mul_div, div_lt_div_iff₀ hdq hpd]
    rw [pow_succ] at hn2q
    calc (q.num.natAbs : ℚ) * 2 ^ log2Fuel q.den q.den
        ≤ q.num.natAbs * q.den := by
          apply mul_le_mul_of_nonneg_left hd1q; positivity
      _ < 2 ^ log2Fuel q.num.natAbs q.num.natAbs * 2 ^ (1 : ℤ) * q.den := by
          apply mul_lt_mul_of_pos_right _ hdq
          simpa using hn2q
  · rename_i h
    push_neg at h
    constructor
    · have : (log2Fuel q.num.natAbs q.num.natAbs : ℤ) - (log2Fuel q.den q.den : ℤ) - 1
          = (log2Fuel q.num.natAbs q.num.natAbs : ℤ) - (log2Fuel q.den q.den : ℤ) + (-1) := by
        ring
      rw [this, hk (-1), habs, div_mul_eq_mul_div, div_le_div_iff₀ hpd hdq]
      rw [pow_succ] at hd2q
      have h2 : (2 : ℚ) ^ (-1 : ℤ) = 1 / 2 := by norm_num
      rw [h2]
      calc (2 : ℚ) ^ log2Fuel q.num.natAbs q.num.natAbs * (1 / 2) * q.den
          ≤ 2 ^ log2Fuel q.num.natAbs q.num.natAbs * (1 / 2) * (2 ^ log2Fuel q.den q.den * 2) := by
            apply mul_le_mul_of_nonneg_left hd2q.le; positivity
        _ = 2 ^ log2Fuel q.num.natAbs q.num.natAbs * 2 ^ log2Fuel q.den q.den := by ring
        _ ≤ q.num.natAbs * 2 ^ log2Fuel q.den q.den := by
            apply mul_le_mul_of_nonneg_right hn1q; positivity
    · simpa using h

theorem rne_intCast (z : ℤ) : rne (z : ℚ) = z := by
  simp [rne]

theorem rne_le {q : ℚ} {N : ℤ} (h : q ≤ N) : rne q ≤ N := by
  have hf : ⌊q⌋ ≤ N := by have := Int.floor_le_floor h; simpa using this
  unfold rne
  simp only
  split
  · exact hf
  · rename_i h1
    have : ⌊q⌋ < N := by
      rcases lt_or_eq_of_le hf with h2 | h2
      · exact h2
      · exfalso
        apply h1
        have : q - (⌊q⌋ : ℚ) ≤ 0 := by rw [h2]; linarith
        linarith
    split
    · omega
    · split <;> omega

theorem le_rne {q : ℚ} {N : ℤ} (h : (N : ℚ) ≤ q) : N ≤ rne q := by
  have hf : N ≤ ⌊q⌋ := Int.le_floor.mpr h
  unfold rne
  simp only
  split
  · exact hf
  · split
    · omega
    · split <;> omega

theorem abs_rne_sub_le (q : ℚ) : |(rne q : ℚ) - q| ≤ 1 / 2 := by
  have h1 : (⌊q⌋ : ℚ) ≤ q := Int.floor_le q
  have h2 : q < ⌊q⌋ + 1 := Int.lt_floor_add_one q
  unfold rne
  simp only
  rw [abs_le]
  split
  · constructor <;> linarith
  · rename_i h3
    push_neg at h3
    split
    · push_cast; constructor <;> linarith
    · rename_i h4
      push_neg at h4
      split
      · constructor <;> linarith
      · push_cast; constructor <;> linarith

theorem Fmt.ulp_pos (f : Fmt) (q : ℚ) : 0 < f.ulp q := two_zpow_pos _

theorem flog2_le_of_lt {q : ℚ} {k : ℤ} (hq : q ≠ 0) (h : |q| < (2 : ℚ) ^ (k + 1)) :
    flog2 q ≤ k := by
  have s1 := (flog2_spec q hq).1
  have := (zpow_lt_zpow_iff_right₀ (by norm_num : (1 : ℚ) < 2)).mp (lt_of_le_of_lt s1 h)
  omega

theorem le_flog2_of_le {q : ℚ} {k : ℤ} (h : (2 : ℚ) ^ k ≤ |q|) : k ≤ flog2 q := by
  have hq : q ≠ 0 := by
    intro h0
    rw [h0, abs_zero] at h
    exact absurd h (not_le.mpr (two_zpow_pos k))
  have s2 := (flog2_spec q hq).2
  have := (zpow_lt_zpow_iff_right₀ (by norm_num : (1 : ℚ) < 2)).mp (lt_of_le_of_lt h s2)
  omega

/-- A value that is a whole number of ulps is not changed by rounding. -/
theorem roundFin_of_int (f : Fmt) (q : ℚ) (z : ℤ) (h : q = z * f.ulp q) :
    f.roundFin q = q := by
  unfold Fmt.roundFin
  split
  · rename_i h0; exact h0.symm
  · have hu := f.ulp_pos q
    have : q / f.ulp q = z := by
      rw [div_eq_iff hu.ne']; exact h
    rw [this, rne_intCast, ← h]

/-- Rounding does not cross a value that is a whole number of ulps (from below). -/
theorem roundFin_le (f : Fmt) (q c : ℚ) (z : ℤ) (hc : c = z * f.ulp q) (h : q ≤ c) :
    f.roundFin q ≤ c := by
  unfold Fmt.roundFin
  split
  · rename_i h0; rw [h0] at h; exact h
  · have hu := f.ulp_pos q
    have h1 : q / f.ulp q ≤ z := by
      rw [div_le_iff₀ hu, ← hc]; exact h
    have h2 : ((rne (q / f.ulp q) : ℤ) : ℚ) ≤ z := by exact_mod_cast rne_le h1
    rw [hc]
    exact mul_le_mul_of_nonneg_right h2 hu.le

/-- Rounding does not cross a value that is a whole number of ulps (from above). -/
theorem le_roundFin (f : Fmt) (q c : ℚ) (z : ℤ) (hc : c = z * f.ulp q) (h : c ≤ q) :
    c ≤ f.roundFin q := by
  unfold Fmt.roundFin
  split
  · rename_i h0; rw [h0] at h; exact h
  · have hu := f.ulp_pos q
    have h1 : (z : ℚ) ≤ q / f.ulp q := by
      rw [le_div_iff₀ hu, ← hc]; exact h
    have h2 : (z : ℚ) ≤ ((rne (q / f.ulp q) : ℤ) : ℚ) := by exact_mod_cast le_rne h1
    rw [hc]
    exact mul_le_mul_of_nonneg_right h2 hu.le

/-- The rounding error is at most half an ulp. -/
theorem abs_roundFin_sub_le (f : Fmt) (q : ℚ) : |f.roundFin q - q| ≤ f.ulp q / 2 := by
  unfold Fmt.roundFin
  have hu := f.ulp_pos q
  split
  · rename_i h0
    rw [h0] at hu ⊢
    simp only [sub_self, abs_zero]
    linarith
  · have h1 := abs_rne_sub_le (q / f.ulp q)
    have h2 : (rne (q / f.ulp q) : ℚ) * f.ulp q - q
        = ((rne (q / f.ulp q) : ℚ) - q / f.ulp q) * f.ulp q := by
      field_simp
    rw [h2, abs_mul, abs_of_pos hu]
    calc |(rne (q / f.ulp q) : ℚ) - q / f.ulp q| * f.ulp q ≤ 1 / 2 * f.ulp q :=
          mul_le_mul_of_nonneg_right h1 hu.le
      _ = f.ulp q / 2 := by ring

/-- In the normal range an ulp is at most `2 ^ (1 - prec)` times the value. -/
theorem ulp_le (f : Fmt) (q : ℚ) (h : (2 : ℚ) ^ f.emin ≤ |q|) :
    f.ulp q ≤ |q| * (2 : ℚ) ^ (1 - (f.prec : ℤ)) := by
  have hq : q ≠ 0 := by
    intro h0
    rw [h0, abs_zero] at h
    exact absurd h (not_le.mpr (two_zpow_pos _))
  have he : f.emin ≤ flog2 q := le_flog2_of_le h
  unfold Fmt.ulp
  rw [max_eq_left he]
  have : flog2 q - ((f.prec : ℤ) - 1) = flog2 q + (1 - (f.prec : ℤ)) := by ring
  rw [this, zpow_add₀ (by norm_num)]
  exact mul_le_mul_of_nonneg_right (flog2_spec q hq).1 (two_zpow_pos _).le

/-- Every integer is a whole number of ulps of a value below `2 ^ prec`. -/
theorem int_mul_ulp (f : Fmt) (q : ℚ) (c : ℤ) (h : max (flog2 q) f.emin ≤ (f.prec : ℤ) - 1) :
    ∃ z : ℤ, (c : ℚ) = z * f.ulp q := by
  obtain ⟨j, hj⟩ : ∃ j : ℕ, max (flog2 q) f.emin - ((f.prec : ℤ) - 1) = -(j : ℤ) :=
    ⟨((f.prec : ℤ) - 1 - max (flog2 q) f.emin).toNat, by omega⟩
  refine ⟨c * 2 ^ j, ?_⟩
  unfold Fmt.ulp
  rw [hj, zpow_neg, zpow_natCast]
  push_cast
  field_simp

theorem Fmt.round_eq_fin (f : Fmt) (q : ℚ) (h : |f.roundFin q| < (2 : ℚ) ^ (f.emax + 1)) :
    f.round q = Fp.fin (f.roundFin q) := by
  unfold Fmt.round
  simp only
  rw [if_neg (not_le.mpr h)]

/-- Integers of magnitude below `2 ^ prec` are represented exactly. -/
theorem roundFin_intCast (f : Fmt) (n : ℤ) (h : |(n : ℚ)| < (2 : ℚ) ^ (f.prec : ℤ))
    (hemin : f.emin ≤ (f.prec : ℤ) - 1) : f.roundFin n = n := by
  by_cases h0 : (n : ℚ) = 0
  · rw [h0]; simp [Fmt.roundFin]
  · have h1 : flog2 (n : ℚ) ≤ (f.prec : ℤ) - 1 :=
      flog2_le_of_lt h0 (by simpa using h)
    obtain ⟨z, hz⟩ := int_mul_ulp f n n (max_le h1 hemin)
    exact roundFin_of_int f n z hz

theorem toF64_nat (n : ℕ) (h : n < 2 ^ 53) : toF64 (n : ℤ) = Fp.fin n := by
  have hq : |((n : ℤ) : ℚ)| < (2 : ℚ) ^ ((binary64.prec : ℕ) : ℤ) := by
    rw [zpow_natCast]
    simp only [Int.cast_natCast, Nat.abs_cast]
    exact_mod_cast h
  have hr := roundFin_intCast binary64 n hq (by decide)
  unfold toF64
  rw [Fmt.round_eq_fin, hr]
  · simp
  · rw [hr]
    refine lt_of_lt_of_le hq ?_
    exact zpow_le_zpow_right₀ (by norm_num) (by decide)

theorem toF32_nat (n : ℕ) (h : n < 2 ^ 24) : toF32 (n : ℤ) = Fp.fin n := by
  have hq : |((n : ℤ) : ℚ)| < (2 : ℚ) ^ ((binary32.prec : ℕ) : ℤ) := by
    rw [zpow_natCast]
    simp only [Int.cast_natCast, Nat.abs_cast]
    exact_mod_cast h
  have hr := roundFin_intCast binary32 n hq (by decide)
  unfold toF32
  rw [Fmt.round_eq_fin, hr]
  · simp
  · rw [hr]
    refine lt_of_lt_of_le hq ?_
    exact zpow_le_zpow_right₀ (by norm_num) (by decide)

/-- Rounding a value of magnitude below `2 ^ prec` does not cross an integer above it. -/
theorem roundFin_le_int (f : Fmt) (q : ℚ) (c : ℤ) (hq : q ≤ c)
    (hlt : |q| < (2 : ℚ) ^ (f.prec : ℤ)) (hemin : f.emin ≤ (f.prec : ℤ) - 1) :
    f.roundFin q ≤ c := by
  by_cases h0 : q = 0
  · rw [h0] at hq ⊢; simpa [Fmt.roundFin] using hq
  · have h1 : flog2 q ≤ (f.prec : ℤ) - 1 := flog2_le_of_lt h0 (by simpa using hlt)
    obtain ⟨z, hz⟩ := int_mul_ulp f q c (max_le h1 hemin)
    exact roundFin_le f q c z hz hq

/-- Rounding a value of magnitude below `2 ^ prec` does not cross an integer below it. -/
theorem int_le_roundFin (f : Fmt) (q : ℚ) (c : ℤ) (hq : (c : ℚ) ≤ q)
    (hlt : |q| < (2 : ℚ) ^ (f.prec : ℤ)) (hemin : f.emin ≤ (f.prec : ℤ) - 1) :
    (c : ℚ) ≤ f.roundFin q := by
  by_cases h0 : q = 0
  · rw [h0] at hq ⊢; simpa [Fmt.roundFin] using hq
  · have h1 : flog2 q ≤ (f.prec : ℤ) - 1 := flog2_le_of_lt h0 (by simpa using hlt)
    obtain ⟨z, hz⟩ := int_mul_ulp f q c (max_le h1 hemin)
    exact le_roundFin f q c z hz hq

theorem roundHalfAway_of_nonneg {q : ℚ} (h : 0 ≤ q) : roundHalfAway q = ⌊q + 1 / 2⌋ := by
  unfold roundHalfAway
  rw [if_pos h]

theorem toU32_fin_int (r : ℤ) (h0 : 0 ≤ r) (h1 : r < 4294967296) :
    (Fp.fin (r : ℚ)).toU32 = some r.toNat := by
  unfold Fp.toU32
  have a1 : (-1 : ℚ) < r := by
    have : ((-1 : ℤ) : ℚ) < (r : ℚ) := by exact_mod_cast (by omega : (-1 : ℤ) < r)
    simpa using this
  have a2 : (r : ℚ) < 4294967296 := by exact_mod_cast h1
  simp only
  rw [if_pos ⟨a1, a2⟩, Int.floor_intCast]

/-- A reduction on the known axis never derives an enlargement on the other axis. -/
theorem deriveDim_le (a b c : ℕ) (hab : a ≤ b) (hb0 : 0 < b) (hb : b < 2 ^ 32)
    (hc : c < 2 ^ 32) : ∃ r, deriveDim a b c = some r ∧ r ≤ c := by
  have hbq : (0 : ℚ) < b := by exact_mod_cast hb0
  have hcq : (0 : ℚ) ≤ c := by positivity
  have hq0 : (0 : ℚ) ≤ (a : ℚ) / b := by positivity
  have hq1 : (a : ℚ) / b ≤ 1 := by
    rw [div_le_one hbq]; exact_mod_cast hab
  have habs : |(a : ℚ) / b| < (2 : ℚ) ^ ((binary64.prec : ℕ) : ℤ) := by
    rw [abs_of_nonneg hq0]
    refine lt_of_le_of_lt hq1 ?_
    rw [zpow_natCast]
    exact one_lt_pow₀ (by norm_num) (by decide)
  have hy1 : binary64.roundFin ((a : ℚ) / b) ≤ 1 := by
    have := roundFin_le_int binary64 _ 1 (by simpa using hq1) habs (by decide)
    simpa using this
  have hy0 : 0 ≤ binary64.roundFin ((a : ℚ) / b) := by
    have := int_le_roundFin binary64 _ 0 (by simpa using hq0) habs (by decide)
    simpa using this
  have hz0 : 0 ≤ binary64.roundFin ((a : ℚ) / b) * c := mul_nonneg hy0 hcq
  have hz1 : binary64.roundFin ((a : ℚ) / b) * c ≤ c := by
    calc binary64.roundFin ((a : ℚ) / b) * c ≤ 1 * c := mul_le_mul_of_nonneg_right hy1 hcq
      _ = c := one_mul _
  have hc53 : (c : ℚ) < (2 : ℚ) ^ ((binary64.prec : ℕ) : ℤ) := by
    rw [zpow_natCast]
    have : c < 2 ^ 53 := lt_trans hc (by norm_num)
    exact_mod_cast this
  have hzabs : |binary64.roundFin ((a : ℚ) / b) * c| < (2 : ℚ) ^ ((binary64.prec : ℕ) : ℤ) := by
    rw [abs_of_nonneg hz0]
    exact lt_of_le_of_lt hz1 hc53
  have hw1 : binary64.roundFin (binary64.roundFin ((a : ℚ) / b) * c) ≤ c := by
    have := roundFin_le_int binary64 _ (c : ℤ) (by simpa using hz1) hzabs (by decide)
    simpa using this
  have hw0 : 0 ≤ binary64.roundFin (binary64.roundFin ((a : ℚ) / b) * c) := by
    have := int_le_roundFin binary64 _ 0 (by simpa using hz0) hzabs (by decide)
    simpa using this
  have hbig : (2 : ℚ) ^ ((binary64.prec : ℕ) : ℤ) ≤ (2 : ℚ) ^ (binary64.emax + 1) :=
    zpow_le_zpow_right₀ (by norm_num) (by decide)
  have e1 : binary64.round ((a : ℚ) / b) = Fp.fin (binary64.roundFin ((a : ℚ) / b)) := by
    apply Fmt.round_eq_fin
    rw [abs_of_nonneg hy0]
    exact lt_of_le_of_lt hy1 (lt_of_lt_of_le (by
      rw [zpow_natCast]; exact one_lt_pow₀ (by norm_num) (by decide)) hbig)
  have e2 : binary64.round (binary64.roundFin ((a : ℚ) / b) * c)
      = Fp.fin (binary64.roundFin (binary64.roundFin ((a : ℚ) / b) * c)) := by
    apply Fmt.round_eq_fin
    rw [abs_of_nonneg hw0]
    exact lt_of_le_of_lt hw1 (lt_of_lt_of_le hc53 hbig)
  have hr0 : 0 ≤ ⌊binary64.roundFin (binary64.roundFin ((a : ℚ) / b) * c) + 1 / 2⌋ :=
    Int.floor_nonneg.mpr (by linarith)
  have hr1 : ⌊binary64.roundFin (binary64.roundFin ((a : ℚ) / b) * c) + 1 / 2⌋ ≤ (c : ℤ) := by
    have : ⌊binary64.roundFin (binary64.roundFin ((a : ℚ) / b) * c) + 1 / 2⌋ < (c : ℤ) + 1 := by
      rw [Int.floor_lt]; push_cast; linarith
    omega
  refine ⟨⌊binary64.roundFin (binary64.roundFin ((a : ℚ) / b) * c) + 1 / 2⌋.toNat, ?_, by omega⟩
  unfold deriveDim
  rw [toF64_nat a (by omega), toF64_nat b (by omega), toF64_nat c (by omega)]
  simp only [Fp.div, if_neg hbq.ne', e1, Fp.mul, e2, Fp.cround]
  rw [roundHalfAway_of_nonneg hw0]
  exact toU32_fin_int _ hr0 (by omega)


/-! ## Facts about the two `main` functions -/

/-- What a completed run of the command-line program looks like. -/
theorem Cli.cli_main_of_size (env : Env) (argv : List String) (iImage : Mat)
    (oW oH : ℕ) (hargc : ¬ (argv.length < 2 ∨ 5 < argv.length))
    (hreq : ¬ (readWidth argv = 0 ∧ readHeight argv = 0))
    (himg : env.imread (argv.getD 1 "") = some iImage)
    (hsize : calcSize (readWidth argv) (readHeight argv) (toU32 iImage.cols)
      (toU32 iImage.rows) = some (oW, oH))
    (hfits : matFits env .oImage oH oW = true) :
    Cli.main env argv =
      ⟨[.imread (argv.getD 1 ""), .alloc .oImage oH oW,
        .run ⟨oW, oH, toU32 iImage.cols, toU32 iImage.rows, calcPatch (toU32 iImage.cols) oW,
          calcPatch (toU32 iImage.rows) oH, Cli.readLambda argv⟩ .oImage,
        .imwrite (argv.getD 1 "") oW oH (.lambda (Cli.readLambda argv)) .oImage], .exit 0⟩ := by
  unfold Cli.main
  rw [if_neg hargc]
  simp only [if_neg hreq, himg, hsize, hfits]
  simp

/-- When the output buffer cannot be built the command-line program ends in the
constructor's exception, before `run`. -/
theorem Cli.cli_main_of_no_fit (env : Env) (argv : List String) (iImage : Mat)
    (oW oH : ℕ) (hargc : ¬ (argv.length < 2 ∨ 5 < argv.length))
    (hreq : ¬ (readWidth argv = 0 ∧ readHeight argv = 0))
    (himg : env.imread (argv.getD 1 "") = some iImage)
    (hsize : calcSize (readWidth argv) (readHeight argv) (toU32 iImage.cols)
      (toU32 iImage.rows) = some (oW, oH))
    (hfits : matFits env .oImage oH oW = false) :
    Cli.main env argv = ⟨[.imread (argv.getD 1 "")], .terminated⟩ := by
  unfold Cli.main
  rw [if_neg hargc]
  simp only [if_neg hreq, himg, hsize, hfits]
  simp

/-- Every parameter block the command-line program hands to `run`. -/
theorem Cli.cli_run_mem (env : Env) (argv : List String) (i : Params)
    (out : Img) (h : Event.run i out ∈ (Cli.main env argv).trace) :
    ∃ iImage, env.imread (argv.getD 1 "") = some iImage ∧
      ¬ (readWidth argv = 0 ∧ readHeight argv = 0) ∧
      calcSize (readWidth argv) (readHeight argv) (toU32 iImage.cols) (toU32 iImage.rows)
        = some (i.oWidth, i.oHeight) ∧
      i.iWidth = toU32 iImage.cols ∧ i.iHeight = toU32 iImage.rows ∧
      i.pWidth = calcPatch i.iWidth i.oWidth ∧ i.pHeight = calcPatch i.iHeight i.oHeight ∧
      i.lambda = Cli.readLambda argv := by
  unfold Cli.main at h
  split at h
  · simp at h
  · simp only at h
    split at h
    · simp at h
    · rename_i hreq
      split at h
      · simp at h
      · rename_i iImage himg
        split at h
        · simp at h
        · rename_i oW oH hsize
          split at h
          · simp at h
          · simp at h
            obtain ⟨h, -⟩ := h
            subst h
            exact ⟨iImage, himg, hreq, hsize, rfl, rfl, rfl, rfl, rfl⟩

/-- The loop of the GUI only ever changes `lambda`, to a slider value. -/
theorem Gui.gui_loop_run (iName : String) (ks : List Gui.KeyPress) :
    ∀ (i : Params) (cur : ℕ) (j : Params) (out : Img),
      Event.run j out ∈ (Gui.loop iName i cur ks).trace →
      ∃ k ∈ ks, ∃ pos, (pos = k.lambda1 ∨ pos = k.lambda2) ∧
        j = { i with lambda := Gui.sliderLambda pos } := by
  induction ks with
  | nil => intro i cur j out h; simp [Gui.loop] at h
  | cons k ks ih =>
    intro i cur j out h
    unfold Gui.loop at h
    simp only at h
    split at h
    · simp only [Gui.andThen, List.mem_append, List.mem_singleton] at h
      rcases h with h | h
      · simp at h
      · obtain ⟨k', hk', pos, hp, hj⟩ := ih _ _ _ _ h
        exact ⟨k', List.mem_cons_of_mem _ hk', pos, hp, hj⟩
    · split at h
      · simp only [Gui.andThen, List.mem_append, List.mem_cons] at h
        rcases h with (h | h | h | h) | h
        · simp at h
          exact ⟨k, List.mem_cons_self _ _, k.lambda1, Or.inl rfl, h.1⟩
        · simp at h
        · simp at h
        · simp at h
        · obtain ⟨k', hk', pos, hp, hj⟩ := ih _ _ _ _ h
          exact ⟨k', List.mem_cons_of_mem _ hk', pos, hp, hj⟩
      · split at h
        · simp only [Gui.andThen, List.mem_append, List.mem_cons] at h
          rcases h with (h | h | h | h) | h
          · simp at h
            exact ⟨k, List.mem_cons_self _ _, k.lambda2, Or.inr rfl, h.1⟩
          · simp at h
          · simp at h
          · simp at h
          · obtain ⟨k', hk', pos, hp, hj⟩ := ih _ _ _ _ h
            exact ⟨k', List.mem_cons_of_mem _ hk', pos, hp, hj⟩
        · split at h
          · simp only [Gui.andThen, List.mem_append, List.mem_cons] at h
            rcases h with (h | h | h | h) | h
            · simp at h
            · simp at h
            · simp at h
            · simp at h
            · obtain ⟨k', hk', pos, hp, hj⟩ := ih _ _ _ _ h
              exact ⟨k', List.mem_cons_of_mem _ hk', pos, hp, hj⟩
          · split at h
            · simp only [Gui.andThen, List.mem_append] at h
              rcases h with h | h
              · exfalso
                unfold Gui.save at h
                split at h
                · simp at h
                · split at h
                  · simp at h
                  · split at h <;> simp at h
              · obtain ⟨k', hk', pos, hp, hj⟩ := ih _ _ _ _ h
                exact ⟨k', List.mem_cons_of_mem _ hk', pos, hp, hj⟩
            · split at h
              · simp at h
              · obtain ⟨k', hk', pos, hp, hj⟩ := ih _ _ _ _ h
                exact ⟨k', List.mem_cons_of_mem _ hk', pos, hp, hj⟩

/-- Every parameter block the GUI program hands to `run`. -/
theorem Gui.gui_run_mem (env : Env) (keys : List Gui.KeyPress)
    (argv : List String) (i : Params) (out : Img)
    (h : Event.run i out ∈ (Gui.main env keys argv).trace) :
    ∃ iImage, env.imread (argv.getD 1 "") = some iImage ∧
      ¬ (readWidth argv = 0 ∧ readHeight argv = 0) ∧
      calcSize (readWidth argv) (readHeight argv) (toU32 iImage.cols) (toU32 iImage.rows)
        = some (i.oWidth, i.oHeight) ∧
      i.iWidth = toU32 iImage.cols ∧ i.iHeight = toU32 iImage.rows ∧
      i.pWidth = calcPatch i.iWidth i.oWidth ∧ i.pHeight = calcPatch i.iHeight i.oHeight ∧
      ∃ k ∈ keys, ∃ pos, (pos = k.lambda1 ∨ pos = k.lambda2) ∧
        i.lambda = Gui.sliderLambda pos := by
  unfold Gui.main at h
  split at h
  · simp at h
  · simp only at h
    split at h
    · simp at h
    · rename_i hreq
      split at h
      · simp at h
      · rename_i iImage himg
        split at h
        · simp at h
        · rename_i oW oH hsize
          split at h
          · simp at h
          · split at h
            · simp at h
            · split at h
              · simp at h
              · split at h
                · simp at h
                · simp only [Gui.andThen, List.mem_append] at h
                  rcases h with h | h
                  · simp at h
                  · obtain ⟨k, hk, pos, hp, hj⟩ := Gui.gui_loop_run _ _ _ _ _ _ h
                    subst hj
                    exact ⟨iImage, himg, hreq, hsize, rfl, rfl, rfl, rfl, k, hk, pos, hp,
                      rfl⟩


theorem roundFin_nonneg (f : Fmt) (q : ℚ) (h : 0 ≤ q) : 0 ≤ f.roundFin q :=
  le_roundFin f q 0 0 (by simp) h

theorem round_nonneg (f : Fmt) (q : ℚ) (h : 0 ≤ q) : (f.round q).nonneg := by
  unfold Fmt.round
  simp only
  split
  · simp [Fp.nonneg, not_lt.mpr h]
  · exact roundFin_nonneg f q h

theorem toF32_nonneg_of (x : Fp) (h : x.nonneg) : x.toF32.nonneg := by
  cases x with
  | fin q => exact round_nonneg _ q h
  | inf neg => exact h
  | nan => exact h

theorem sliderLambda_nonneg (pos : ℤ) (h : 0 ≤ pos) : (Gui.sliderLambda pos).nonneg := by
  have h100 : toF32 100 = Fp.fin 100 := by
    have := toF32_nat 100 (by norm_num)
    simpa using this
  have hp : (toF32 pos).nonneg := round_nonneg _ _ (by exact_mod_cast h)
  unfold Gui.sliderLambda
  rw [h100]
  cases hx : toF32 pos with
  | fin q =>
    rw [hx] at hp
    simp only [Fp.div]
    rw [if_neg (by norm_num)]
    exact round_nonneg _ _ (div_nonneg hp (by norm_num))
  | inf neg =>
    rw [hx] at hp
    simp only [Fp.nonneg] at hp
    subst hp
    simp [Fp.div, Fp.nonneg]
  | nan =>
    rw [hx] at hp
    exact absurd hp (by simp [Fp.nonneg])

theorem toU32_lt (z : ℤ) : toU32 z < 2 ^ 32 := by
  unfold toU32
  have := Int.emod_lt_of_pos z (by norm_num : (0 : ℤ) < 4294967296)
  have := Int.emod_nonneg z (by norm_num : (4294967296 : ℤ) ≠ 0)
  omega


/-- In the normal range of binary64 the relative rounding error is at most `2 ^ -53`. -/
theorem abs_roundFin64_sub_le (q : ℚ) (h : 1 / 8589934592 ≤ |q|) :
    |binary64.roundFin q - q| ≤ |q| / 9007199254740992 := by
  have hmin : (2 : ℚ) ^ binary64.emin ≤ |q| := by
    refine le_trans ?_ h
    have h1 : (2 : ℚ) ^ binary64.emin ≤ (2 : ℚ) ^ (-33 : ℤ) :=
      zpow_le_zpow_right₀ (by norm_num) (by decide)
    have h2 : (2 : ℚ) ^ (-33 : ℤ) = 1 / 8589934592 := by norm_num
    rw [← h2]; exact h1
  have h1 := abs_roundFin_sub_le binary64 q
  have h2 := ulp_le binary64 q hmin
  have h3 : (2 : ℚ) ^ (1 - ((binary64.prec : ℕ) : ℤ)) = 1 / 4503599627370496 := by
    have : (1 - ((binary64.prec : ℕ) : ℤ)) = (-52 : ℤ) := by decide
    rw [this]; norm_num
  rw [h3] at h2
  linarith

/-- The value the aspect-ratio expression computes before `std::round`: it is finite,
positive and within `1 / (2 * srcKnown)` of the exact quotient. -/
theorem deriveDim_near (a b c : ℕ) (ha : 0 < a) (hb : 0 < b) (hc : 0 < c) (hb32 : b < 2 ^ 32)
    (hprod : a * c ≤ 2 ^ 50) :
    ∃ y : ℚ, Fp.mul binary64 (Fp.div binary64 (toF64 a) (toF64 b)) (toF64 c) = Fp.fin y ∧
      0 < y ∧ |y - (a : ℚ) / b * c| < 1 / (2 * b) := by
  have haq : (1 : ℚ) ≤ a := by exact_mod_cast ha
  have hbq : (1 : ℚ) ≤ b := by exact_mod_cast hb
  have hcq : (1 : ℚ) ≤ c := by exact_mod_cast hc
  have hb0 : (0 : ℚ) < b := by linarith
  have hbq32 : (b : ℚ) < 4294967296 := by exact_mod_cast hb32
  have hprodq : (a : ℚ) * c ≤ 1125899906842624 := by exact_mod_cast hprod
  have ha50 : a ≤ 2 ^ 50 := le_trans (Nat.le_mul_of_pos_right a hc) hprod
  have hc50 : c ≤ 2 ^ 50 := le_trans (Nat.le_mul_of_pos_left c ha) hprod
  have ha50q : (a : ℚ) ≤ 1125899906842624 := by exact_mod_cast ha50
  -- the quotient
  have hq1pos : (0 : ℚ) < (a : ℚ) / b := by positivity
  have hq1lo : 1 / 4294967296 ≤ (a : ℚ) / b := by
    rw [le_div_iff₀ hb0]; linarith
  have hq1hi : (a : ℚ) / b ≤ a := div_le_self (by linarith) hbq
  have e1 := abs_roundFin64_sub_le ((a : ℚ) / b) (by rw [abs_of_pos hq1pos]; linarith)
  rw [abs_of_pos hq1pos, abs_le] at e1
  obtain ⟨e1a, e1b⟩ := e1
  -- the product
  have hx : (a : ℚ) / b * c = (a : ℚ) * c / b := by ring
  have hxpos : (0 : ℚ) < (a : ℚ) / b * c := by positivity
  have hxlo : 1 / 4294967296 ≤ (a : ℚ) / b * c := by
    calc (1 : ℚ) / 4294967296 ≤ (a : ℚ) / b := hq1lo
      _ = (a : ℚ) / b * 1 := (mul_one _).symm
      _ ≤ (a : ℚ) / b * c := mul_le_mul_of_nonneg_left hcq hq1pos.le
  have hxhi : (a : ℚ) / b * c * (2 * b) ≤ 2251799813685248 := by
    have h2 : (a : ℚ) * c / b * (2 * b) = 2 * ((a : ℚ) * c) := by field_simp; ring
    rw [hx, h2]; linarith
  have hc0 : (0 : ℚ) ≤ c := by linarith
  have hz1 : (a : ℚ) / b * c - (a : ℚ) / b * c / 9007199254740992
      ≤ binary64.roundFin ((a : ℚ) / b) * c := by
    have := mul_le_mul_of_nonneg_right e1a hc0
    linarith
  have hz2 : binary64.roundFin ((a : ℚ) / b) * c
      ≤ (a : ℚ) / b * c + (a : ℚ) / b * c / 9007199254740992 := by
    have := mul_le_mul_of_nonneg_right e1b hc0
    linarith
  have hzpos : (0 : ℚ) < binary64.roundFin ((a : ℚ) / b) * c := by linarith
  have e2 := abs_roundFin64_sub_le (binary64.roundFin ((a : ℚ) / b) * c)
    (by rw [abs_of_pos hzpos]; linarith)
  rw [abs_of_pos hzpos, abs_le] at e2
  obtain ⟨e2a, e2b⟩ := e2
  have hgap : (a : ℚ) / b * c / 2251799813685248 ≤ 1 / (2 * b) := by
    rw [div_le_div_iff₀ (by norm_num) (by positivity)]
    linarith
  have hy1 : binary64.roundFin (binary64.roundFin ((a : ℚ) / b) * c)
      < (a : ℚ) / b * c + 1 / (2 * b) := by linarith
  have hy2 : (a : ℚ) / b * c - 1 / (2 * b)
      < binary64.roundFin (binary64.roundFin ((a : ℚ) / b) * c) := by linarith
  have hypos : 0 < binary64.roundFin (binary64.roundFin ((a : ℚ) / b) * c) := by linarith
  have hhalf : 1 / (2 * (b : ℚ)) ≤ 1 / 2 := by
    rw [div_le_div_iff₀ (by positivity) (by norm_num)]; linarith
  have hxle : (a : ℚ) / b * c ≤ 1125899906842624 := by
    rw [hx]
    exact le_trans (div_le_self (by positivity) hbq) hprodq
  have hbig : (1125899906842625 : ℚ) < (2 : ℚ) ^ (binary64.emax + 1) := by
    have h1 : (2 : ℚ) ^ (51 : ℤ) ≤ (2 : ℚ) ^ (binary64.emax + 1) :=
      zpow_le_zpow_right₀ (by norm_num) (by decide)
    have h2 : (2 : ℚ) ^ (51 : ℤ) = 2251799813685248 := by norm_num
    rw [h2] at h1; linarith
  have r1 : binary64.round ((a : ℚ) / b) = Fp.fin (binary64.roundFin ((a : ℚ) / b)) := by
    apply Fmt.round_eq_fin
    rw [abs_of_pos (by linarith)]
    linarith
  have r2 : binary64.round (binary64.roundFin ((a : ℚ) / b) * c)
      = Fp.fin (binary64.roundFin (binary64.roundFin ((a : ℚ) / b) * c)) := by
    apply Fmt.round_eq_fin
    rw [abs_of_pos hypos]
    linarith
  refine ⟨binary64.roundFin (binary64.roundFin ((a : ℚ) / b) * c), ?_, hypos, ?_⟩
  · rw [toF64_nat a (lt_of_le_of_lt ha50 (by norm_num)), toF64_nat b (by omega),
      toF64_nat c (lt_of_le_of_lt hc50 (by norm_num))]
    simp only [Fp.div, if_neg hb0.ne', r1, Fp.mul, r2]
  · rw [abs_lt]; constructor <;> linarith


/-- The aspect-ratio expression against the exact rounding of the specification. -/
theorem deriveDim_rounds (a b c : ℕ) (ha : 0 < a) (hb : 0 < b) (hc : 0 < c) (hb32 : b < 2 ^ 32)
    (hprod : a * c ≤ 2 ^ 50) (hfit : specDerive a b c < 2 ^ 32) :
    ∃ r : ℕ, deriveDim a b c = some r ∧ roundsUpToTie r a b c := by
  obtain ⟨y, hy, hypos, hnear⟩ := deriveDim_near a b c ha hb hc hb32 hprod
  have hb0 : (0 : ℚ) < b := by exact_mod_cast hb
  have hxpos : (0 : ℚ) < (a : ℚ) / b * c := by
    have : (0 : ℚ) < a := by exact_mod_cast ha
    have : (0 : ℚ) < c := by exact_mod_cast hc
    positivity
  have hspec : specDerive a b c = ⌊(a : ℚ) / b * c + 1 / 2⌋ := by
    unfold specDerive
    exact roundHalfAway_of_nonneg hxpos.le
  rw [abs_lt] at hnear
  obtain ⟨hn1, hn2⟩ := hnear
  -- the distance of the exact value from the integer below it, in units of 1 / (2 * b)
  have hk1 : ((⌊(a : ℚ) / b * c + 1 / 2⌋ : ℤ) : ℚ) ≤ (a : ℚ) / b * c + 1 / 2 := Int.floor_le _
  have hk2 : (a : ℚ) / b * c + 1 / 2 < (⌊(a : ℚ) / b * c + 1 / 2⌋ : ℤ) + 1 :=
    Int.lt_floor_add_one _
  obtain ⟨T, hT⟩ : ∃ T : ℤ, (T : ℚ)
      = ((a : ℚ) / b * c + 1 / 2 - (⌊(a : ℚ) / b * c + 1 / 2⌋ : ℤ)) * (2 * b) := by
    refine ⟨2 * (a : ℤ) * c + b - 2 * b * ⌊(a : ℚ) / b * c + 1 / 2⌋, ?_⟩
    push_cast
    field_simp
    ring
  have h2b : (0 : ℚ) < 2 * b := by positivity
  have hinv : 1 / (2 * (b : ℚ)) * (2 * b) = 1 := by field_simp
  have hr0 : 0 ≤ ⌊y + 1 / 2⌋ := Int.floor_nonneg.mpr (by linarith)
  have hT0 : 0 ≤ T := by
    have : (0 : ℚ) ≤ (T : ℚ) := by
      rw [hT]
      exact mul_nonneg (by linarith) h2b.le
    exact_mod_cast this
  have hTlt : T < 2 * (b : ℤ) := by
    have : (T : ℚ) < ((2 * (b : ℤ) : ℤ) : ℚ) := by
      rw [hT]; push_cast; nlinarith
    exact_mod_cast this
  -- the computed value is never above the specification's
  have hle : ⌊y + 1 / 2⌋ ≤ ⌊(a : ℚ) / b * c + 1 / 2⌋ := by
    have hle1 : (T : ℚ) ≤ ((2 * (b : ℤ) - 1 : ℤ) : ℚ) := by
      exact_mod_cast (show T ≤ 2 * (b : ℤ) - 1 by omega)
    rw [hT] at hle1
    push_cast at hle1
    have hgap : (a : ℚ) / b * c + 1 / 2 - (⌊(a : ℚ) / b * c + 1 / 2⌋ : ℤ) + 1 / (2 * b)
        ≤ 1 := by
      have h3 : ((a : ℚ) / b * c + 1 / 2 - (⌊(a : ℚ) / b * c + 1 / 2⌋ : ℤ) + 1 / (2 * b))
          * (2 * b) ≤ 1 * (2 * b) := by
        rw [add_mul, hinv]; linarith
      exact le_of_mul_le_mul_right h3 h2b
    have : ⌊y + 1 / 2⌋ < ⌊(a : ℚ) / b * c + 1 / 2⌋ + 1 := by
      rw [Int.floor_lt]
      push_cast
      linarith
    omega
  have hge : ⌊(a : ℚ) / b * c + 1 / 2⌋ - 1 ≤ ⌊y + 1 / 2⌋ := by
    rw [Int.le_floor]
    push_cast
    have : 1 / (2 * (b : ℚ)) ≤ 1 / 2 := by
      rw [div_le_div_iff₀ h2b (by norm_num)]
      have : (1 : ℚ) ≤ b := by exact_mod_cast hb
      linarith
    linarith
  refine ⟨⌊y + 1 / 2⌋.toNat, ?_, ?_, ?_⟩
  · unfold deriveDim
    rw [hy]
    simp only [Fp.cround]
    rw [roundHalfAway_of_nonneg hypos.le]
    exact toU32_fin_int _ hr0 (by rw [hspec] at hfit; omega)
  · intro hnot
    rw [hspec, Int.toNat_of_nonneg hr0]
    have hne : T ≠ 0 := by
      intro h0
      apply hnot
      have h0q : (T : ℚ) = 0 := by rw [h0]; simp
      rw [hT] at h0q
      have hx : (a : ℚ) / b * c + 1 / 2 - (⌊(a : ℚ) / b * c + 1 / 2⌋ : ℤ) = 0 := by
        rcases mul_eq_zero.mp h0q with h | h
        · exact h
        · exact absurd h h2b.ne'
      unfold isHalfInteger
      rw [Int.fract_eq_iff]
      refine ⟨by norm_num, by norm_num, ⌊(a : ℚ) / b * c + 1 / 2⌋ - 1, ?_⟩
      push_cast
      linarith
    have hge1 : ((1 : ℤ) : ℚ) ≤ (T : ℚ) := by
      exact_mod_cast (show (1 : ℤ) ≤ T by omega)
    rw [hT] at hge1
    push_cast at hge1
    have hgap : 1 / (2 * (b : ℚ))
        ≤ (a : ℚ) / b * c + 1 / 2 - (⌊(a : ℚ) / b * c + 1 / 2⌋ : ℤ) := by
      rw [div_le_iff₀ h2b]; exact hge1
    have : ⌊(a : ℚ) / b * c + 1 / 2⌋ ≤ ⌊y + 1 / 2⌋ := by
      rw [Int.le_floor]
      linarith
    omega
  · intro _
    rw [hspec, Int.toNat_of_nonneg hr0]
    omega

theorem calcSize_derives (w h iW iH : ℕ) (hiW0 : 0 < iW) (hiH0 : 0 < iH) (hiW : iW < 2 ^ 32)
    (hiH : iH < 2 ^ 32) :
    (w = 0 → 0 < h → h * iW ≤ 2 ^ 50 → specDerive h iH iW < 2 ^ 32 →
      ∃ r, calcSize w h iW iH = some (r, h) ∧ roundsUpToTie r h iH iW) ∧
    (h = 0 → 0 < w → w * iH ≤ 2 ^ 50 → specDerive w iW iH < 2 ^ 32 →
      ∃ r, calcSize w h iW iH = some (w, r) ∧ roundsUpToTie r w iW iH) := by
  constructor
  · intro hw hh hprod hfit
    obtain ⟨r, hr, hrt⟩ := deriveDim_rounds h iH iW hh hiH0 hiW0 hiH hprod hfit
    refine ⟨r, ?_, hrt⟩
    unfold calcSize
    simp [hw, hr, hh.ne']
  · intro hh hw hprod hfit
    obtain ⟨r, hr, hrt⟩ := deriveDim_rounds w iW iH hw hiW0 hiH0 hiW hprod hfit
    refine ⟨r, ?_, hrt⟩
    unfold calcSize
    simp [hh, hr, hw.ne']


theorem patchesDisjoint_of_pos (pw ph : ℚ) (oW oH : ℕ) (hpw : 0 < pw) (hph : 0 < ph) :
    patchesDisjoint pw ph oW oH := by
  intro ox oy ox' oy' _ _ _ _ hne x y ⟨⟨a1, a2, a3, a4⟩, ⟨b1, b2, b3, b4⟩⟩
  unfold patchLo at a1 a3 b1 b3
  unfold patchHi at a2 a4 b2 b4
  have step : ∀ (p : ℚ) (m n : ℕ) (t : ℚ), 0 < p → (m : ℚ) * p ≤ t → t < ((n : ℚ) + 1) * p →
      m ≤ n := by
    intro p m n t hp h1 h2
    by_contra hlt
    have hmn : n + 1 ≤ m := by omega
    have hq : ((n : ℚ) + 1) ≤ m := by exact_mod_cast hmn
    have := mul_le_mul_of_nonneg_right hq hp.le
    linarith
  have e1 : ox = ox' :=
    le_antisymm (step pw ox ox' x hpw a1 b2) (step pw ox' ox x hpw b1 a2)
  have e2 : oy = oy' :=
    le_antisymm (step ph oy oy' y hph a3 b4) (step ph oy' oy y hph b3 a4)
  exact hne (by rw [e1, e2])

theorem patchAreaSum_eq (pw ph : ℚ) (oW oH : ℕ) :
    patchAreaSum pw ph oW oH = ((oW : ℚ) * pw) * ((oH : ℚ) * ph) := by
  unfold patchAreaSum patchHi patchLo
  have h : ∀ ox oy : ℕ, (((ox : ℚ) + 1) * pw - (ox : ℚ) * pw) * (((oy : ℚ) + 1) * ph - (oy : ℚ) * ph)
      = pw * ph := by
    intro ox oy; ring
  simp only [h, Finset.sum_const, Finset.card_range, nsmul_eq_mul]
  ring

theorem patchesCover_of_exact (iW iH oW oH : ℕ) (hoW : 0 < oW) (hoH : 0 < oH) :
    patchesCover ((iW : ℚ) / oW) ((iH : ℚ) / oH) iW iH oW oH := by
  have hw : (0 : ℚ) < oW := by exact_mod_cast hoW
  have hh : (0 : ℚ) < oH := by exact_mod_cast hoH
  have e1 : (oW : ℚ) * ((iW : ℚ) / oW) = iW := by field_simp
  have e2 : (oH : ℚ) * ((iH : ℚ) / oH) = iH := by field_simp
  have c1 : ((oW - 1 : ℕ) : ℚ) + 1 = oW := by
    have : oW - 1 + 1 = oW := by omega
    exact_mod_cast this
  have c2 : ((oH - 1 : ℕ) : ℚ) + 1 = oH := by
    have : oH - 1 + 1 = oH := by omega
    exact_mod_cast this
  refine ⟨?_, e1, ?_, e2, ?_⟩
  · unfold patchHi; rw [c1, e1]
  · unfold patchHi; rw [c2, e2]
  · rw [patchAreaSum_eq, e1, e2]

/-- In the normal range of binary32 the relative rounding error is at most `2 ^ -24`. -/
theorem abs_roundFin32_sub_le (q : ℚ) (h : 1 / 34359738368 ≤ |q|) :
    |binary32.roundFin q - q| ≤ |q| / 16777216 := by
  have hmin : (2 : ℚ) ^ binary32.emin ≤ |q| := by
    refine le_trans ?_ h
    have h1 : (2 : ℚ) ^ binary32.emin ≤ (2 : ℚ) ^ (-35 : ℤ) :=
      zpow_le_zpow_right₀ (by norm_num) (by decide)
    have h2 : (2 : ℚ) ^ (-35 : ℤ) = 1 / 34359738368 := by norm_num
    rw [← h2]; exact h1
  have h1 := abs_roundFin_sub_le binary32 q
  have h2 := ulp_le binary32 q hmin
  have h3 : (2 : ℚ) ^ (1 - ((binary32.prec : ℕ) : ℤ)) = 1 / 8388608 := by
    have : (1 - ((binary32.prec : ℕ) : ℤ)) = (-23 : ℤ) := by decide
    rw [this]; norm_num
  rw [h3] at h2
  linarith

theorem two_pow_lt_emax32 : (34359738368 : ℚ) < (2 : ℚ) ^ (binary32.emax + 1) := by
  have h1 : (2 : ℚ) ^ (36 : ℤ) ≤ (2 : ℚ) ^ (binary32.emax + 1) :=
    zpow_le_zpow_right₀ (by norm_num) (by decide)
  have h2 : (2 : ℚ) ^ (36 : ℤ) = 68719476736 := by norm_num
  rw [h2] at h1; linarith

/-- The conversion `(float) n` of a positive `uint32_t` is finite and close to `n`. -/
theorem toF32_pos (n : ℕ) (h0 : 0 < n) (h32 : n < 2 ^ 32) :
    ∃ a : ℚ, toF32 (n : ℤ) = Fp.fin a ∧ 1 / 2 ≤ a ∧ a ≤ 8589934592 := by
  have hn1 : (1 : ℚ) ≤ n := by exact_mod_cast h0
  have hn2 : (n : ℚ) < 4294967296 := by exact_mod_cast h32
  have hn0 : (0 : ℚ) < n := by linarith
  have e := abs_roundFin32_sub_le (n : ℚ) (by rw [abs_of_pos hn0]; linarith)
  rw [abs_of_pos hn0, abs_le] at e
  obtain ⟨e1, e2⟩ := e
  refine ⟨binary32.roundFin (n : ℚ), ?_, by linarith, by linarith⟩
  unfold toF32
  have : ((n : ℤ) : ℚ) = (n : ℚ) := by simp
  rw [this]
  apply Fmt.round_eq_fin
  have := two_pow_lt_emax32
  rw [abs_of_pos (show 0 < binary32.roundFin (n : ℚ) by linarith)]
  linarith

/-- The patch size of positive dimensions is a finite positive `float`. -/
theorem calcPatch_pos (inDim outDim : ℕ) (hi : 0 < inDim) (ho : 0 < outDim)
    (hi32 : inDim < 2 ^ 32) (ho32 : outDim < 2 ^ 32) :
    ∃ p : ℚ, calcPatch inDim outDim = Fp.fin p ∧ 0 < p := by
  obtain ⟨a, ha, ha1, ha2⟩ := toF32_pos inDim hi hi32
  obtain ⟨b, hb, hb1, hb2⟩ := toF32_pos outDim ho ho32
  have hb0 : (0 : ℚ) < b := by linarith
  have ha0 : (0 : ℚ) < a := by linarith
  have hq0 : 0 < a / b := by positivity
  have hq1 : 1 / 34359738368 ≤ a / b := by
    rw [div_le_div_iff₀ (by norm_num) hb0]; linarith
  have hq2 : a / b ≤ 17179869184 := by
    rw [div_le_iff₀ hb0]; linarith
  have e := abs_roundFin32_sub_le (a / b) (by rw [abs_of_pos hq0]; exact hq1)
  rw [abs_of_pos hq0, abs_le] at e
  obtain ⟨e1, e2⟩ := e
  have hpos : 0 < binary32.roundFin (a / b) := by linarith
  refine ⟨binary32.roundFin (a / b), ?_, hpos⟩
  unfold calcPatch
  rw [ha, hb]
  simp only [Fp.div, if_neg hb0.ne']
  apply Fmt.round_eq_fin
  have := two_pow_lt_emax32
  rw [abs_of_pos hpos]
  linarith

/-- The patch size is the exact quotient when that quotient is a `float`. -/
theorem calcPatch_exact (inDim outDim : ℕ) (ho : 0 < outDim) (hi24 : inDim < 2 ^ 24)
    (ho24 : outDim < 2 ^ 24)
    (hrep : quotientIsFloat inDim outDim) :
    calcPatch inDim outDim = Fp.fin ((inDim : ℚ) / outDim) := by
  unfold quotientIsFloat at hrep
  have ho0 : (0 : ℚ) < outDim := by exact_mod_cast ho
  have ho1 : (1 : ℚ) ≤ outDim := by exact_mod_cast ho
  have hi : (inDim : ℚ) < 16777216 := by exact_mod_cast hi24
  have hi0 : (0 : ℚ) ≤ inDim := by positivity
  unfold calcPatch
  rw [toF32_nat inDim hi24, toF32_nat outDim ho24]
  simp only [Fp.div, if_neg ho0.ne']
  rw [Fmt.round_eq_fin, hrep]
  rw [hrep, abs_of_nonneg (show (0 : ℚ) ≤ (inDim : ℚ) / outDim by positivity)]
  have := two_pow_lt_emax32
  have : (inDim : ℚ) / outDim ≤ inDim := div_le_self hi0 ho1
  linarith

/-- A whole quotient below `2 ^ 24` is a `float`. -/
theorem quotientIsFloat_of_dvd (inDim outDim : ℕ) (ho : 0 < outDim) (hi24 : inDim < 2 ^ 24)
    (hdvd : outDim ∣ inDim) : quotientIsFloat inDim outDim := by
  unfold quotientIsFloat
  obtain ⟨k, rfl⟩ := hdvd
  have ho0 : (outDim : ℚ) ≠ 0 := by exact_mod_cast ho.ne'
  have hk : ((outDim * k : ℕ) : ℚ) / outDim = ((k : ℤ) : ℚ) := by
    push_cast; field_simp
  rw [hk]
  apply roundFin_intCast binary32 k _ (by decide)
  have hk24 : k < 2 ^ 24 := lt_of_le_of_lt (Nat.le_mul_of_pos_left k ho) hi24
  have : |((k : ℤ) : ℚ)| = (k : ℚ) := by simp
  rw [this, zpow_natCast]
  exact_mod_cast hk24

theorem deriveDim_lt (a b c r : ℕ) (h : deriveDim a b c = some r) : r < 2 ^ 32 := by
  unfold deriveDim at h
  cases hx : (Fp.mul binary64 (Fp.div binary64 (toF64 a) (toF64 b)) (toF64 c)).cround with
  | fin q =>
    rw [hx] at h
    unfold Fp.toU32 at h
    simp only at h
    split at h
    · rename_i hq
      simp only [Option.some.injEq] at h
      subst h
      have h1 : ⌊q⌋ < 4294967296 := by
        rw [Int.floor_lt]; exact_mod_cast hq.2
      omega
    · simp at h
  | inf neg => rw [hx] at h; simp [Fp.toU32] at h
  | nan => rw [hx] at h; simp [Fp.toU32] at h

theorem calcSize_lt (w h iW iH w' h' : ℕ) (hw : w < 2 ^ 32) (hh : h < 2 ^ 32)
    (hs : calcSize w h iW iH = some (w', h')) : w' < 2 ^ 32 ∧ h' < 2 ^ 32 := by
  unfold calcSize at hs
  split at hs
  · simp at hs
  · rename_i w1 hw1
    split at hs
    · simp at hs
    · rename_i h1 hh1
      simp only [Option.some.injEq, Prod.mk.injEq] at hs
      obtain ⟨rfl, rfl⟩ := hs
      constructor
      · split at hw1
        · exact deriveDim_lt _ _ _ _ hw1
        · simp only [Option.some.injEq] at hw1; omega
      · split at hh1
        · exact deriveDim_lt _ _ _ _ hh1
        · simp only [Option.some.injEq] at hh1; omega

theorem readWidth_lt (argv : List String) : readWidth argv < 2 ^ 32 := by
  unfold readWidth
  split
  · norm_num
  · exact toU32_lt _

theorem readHeight_lt (argv : List String) : readHeight argv < 2 ^ 32 := by
  unfold readHeight
  split
  · norm_num
  · exact toU32_lt _

/-- What holds of the patches of any parameter block with positive dimensions. -/
theorem patches_of_params (i : Params) (hp1 : i.pWidth = calcPatch i.iWidth i.oWidth)
    (hp2 : i.pHeight = calcPatch i.iHeight i.oHeight)
    (hiW : 0 < i.iWidth) (hiH : 0 < i.iHeight) (hoW : 0 < i.oWidth) (hoH : 0 < i.oHeight)
    (hiW32 : i.iWidth < 2 ^ 32) (hiH32 : i.iHeight < 2 ^ 32) (hoW32 : i.oWidth < 2 ^ 32)
    (hoH32 : i.oHeight < 2 ^ 32) :
    patchesApart i ∧
    (i.iWidth < 2 ^ 24 → i.iHeight < 2 ^ 24 → i.oWidth < 2 ^ 24 → i.oHeight < 2 ^ 24 →
      quotientIsFloat i.iWidth i.oWidth → quotientIsFloat i.iHeight i.oHeight →
      tilesSource i) := by
  obtain ⟨pw, hpw, hpw0⟩ := calcPatch_pos i.iWidth i.oWidth hiW hoW hiW32 hoW32
  obtain ⟨ph, hph, hph0⟩ := calcPatch_pos i.iHeight i.oHeight hiH hoH hiH32 hoH32
  constructor
  · exact ⟨pw, ph, by rw [hp1, hpw], by rw [hp2, hph], hpw0, hph0,
      patchesDisjoint_of_pos pw ph _ _ hpw0 hph0⟩
  · intro hi1 hi2 ho1 ho2 hq1 hq2
    have e1 := calcPatch_exact _ _ hoW hi1 ho1 hq1
    have e2 := calcPatch_exact _ _ hoH hi2 ho2 hq2
    have hiWq : (0 : ℚ) < i.iWidth := by exact_mod_cast hiW
    have hiHq : (0 : ℚ) < i.iHeight := by exact_mod_cast hiH
    have hoWq : (0 : ℚ) < i.oWidth := by exact_mod_cast hoW
    have hoHq : (0 : ℚ) < i.oHeight := by exact_mod_cast hoH
    exact ⟨_, _, by rw [hp1, e1], by rw [hp2, e2],
      patchesDisjoint_of_pos _ _ _ _ (by positivity) (by positivity),
      patchesCover_of_exact _ _ _ _ hoW hoH⟩


/-! ## The claims -/

/-- C1: a request whose output width and height are both 0 is rejected: both programs
terminate with status 1 and their executions contain no image load, no buffer allocation
and no call of `run`. -/
theorem both_zero_rejected (env : Env) (keys : List Gui.KeyPress)
    (argv : List String) (hw : readWidth argv = 0) (hh : readHeight argv = 0) :
    ((Cli.main env argv).status = Status.exit 1 ∧
      ∀ e ∈ (Cli.main env argv).trace, e.isWork = false) ∧
    ((Gui.main env keys argv).status = Status.exit 1 ∧
      ∀ e ∈ (Gui.main env keys argv).trace, e.isWork = false) := by
  unfold Cli.main Gui.main
  by_cases hargc : argv.length < 2 ∨ 5 < argv.length
  · simp [hargc, Event.isWork]
  · simp [hargc, hw, hh, Event.isWork]

/-- C1, at the request `dpid a.png 0` (the height defaults to 0). -/
theorem both_zero_rejected_witness :
    readWidth ["dpid", "a.png", "0"] = 0 ∧ readHeight ["dpid", "a.png", "0"] = 0 ∧
    ((Cli.main (oneImage "a.png" 640 480) ["dpid", "a.png", "0"]).status = Status.exit 1 ∧
      ∀ e ∈ (Cli.main (oneImage "a.png" 640 480) ["dpid", "a.png", "0"]).trace,
        e.isWork = false) ∧
    ((Gui.main (oneImage "a.png" 640 480) [⟨50, 30, 0⟩] ["dpid", "a.png", "0"]).status
        = Status.exit 1 ∧
      ∀ e ∈ (Gui.main (oneImage "a.png" 640 480) [⟨50, 30, 0⟩] ["dpid", "a.png", "0"]).trace,
        e.isWork = false) :=
  ⟨by decide!, by decide!,
    both_zero_rejected (oneImage "a.png" 640 480) [⟨50, 30, 0⟩] ["dpid", "a.png", "0"]
      (by decide!) (by decide!)⟩

/-- C2 fails: `dpid a.png 256` on a 100 x 100 image asks for an enlargement (patch size
25/64 on both axes), yet the output buffer is allocated, `run` is invoked and the program
ends with status 0. -/
theorem enlargement_reaches_run :
    Cli.main (oneImage "a.png" 100 100) ["dpid", "a.png", "256"] =
      ⟨[.imread "a.png", .alloc .oImage 256 256,
        .run ⟨256, 256, 100, 100, .fin (25 / 64), .fin (25 / 64), .fin 1⟩ .oImage,
        .imwrite "a.png" 256 256 (.lambda (.fin 1)) .oImage], .exit 0⟩ ∧
    (Fp.fin (25 / 64)).ltOne := by
  decide!

/-- A width that converts to a negative `int` ends in the exception of the buffer
constructor, before `run`: `dpid a.png -1 7` on a 100 x 100 image. -/
theorem negative_size_terminates :
    calcSize (toU32 (atoi "-1")) (toU32 (atoi "7")) 100 100 = some (4294967295, 7) ∧
    matFits (oneImage "a.png" 100 100) .oImage 7 4294967295 = false ∧
    Cli.main (oneImage "a.png" 100 100) ["dpid", "a.png", "-1", "7"]
      = ⟨[.imread "a.png"], .terminated⟩ := by
  decide!

/-- C2, amended: the command-line program checks no scale.  Whenever the request passes
the both-zero check, the image is readable, the size resolution is defined and the output
buffer can be built, the buffer is allocated and `run` is invoked, whatever the patch
size; and an execution in which `run` is not invoked ended in the usage exit, the both-zero
exit, the unreadable-image exit, an undefined size conversion or the exception of the
buffer constructor, none of which looks at the patch size. -/
theorem no_scale_validation (env : Env) (argv : List String) :
    (∀ (iImage : Mat) (oW oH : ℕ), ¬ (argv.length < 2 ∨ 5 < argv.length) →
      ¬ (readWidth argv = 0 ∧ readHeight argv = 0) →
      env.imread (argv.getD 1 "") = some iImage →
      calcSize (readWidth argv) (readHeight argv) (toU32 iImage.cols) (toU32 iImage.rows)
        = some (oW, oH) →
      matFits env .oImage oH oW = true →
      Event.alloc .oImage oH oW ∈ (Cli.main env argv).trace ∧
      Event.run ⟨oW, oH, toU32 iImage.cols, toU32 iImage.rows,
        calcPatch (toU32 iImage.cols) oW, calcPatch (toU32 iImage.rows) oH,
        Cli.readLambda argv⟩ .oImage ∈ (Cli.main env argv).trace) ∧
    ((∀ (i : Params) (out : Img), Event.run i out ∉ (Cli.main env argv).trace) →
      Cli.main env argv = ⟨[.usage], .exit 1⟩ ∨
      Cli.main env argv = ⟨[.cerr "either width or height has to be non-zero!"], .exit 1⟩ ∨
      Cli.main env argv
        = ⟨[.imread (argv.getD 1 ""), .cerr "unable to read image"], .exit 1⟩ ∨
      (∃ iImage : Mat, env.imread (argv.getD 1 "") = some iImage ∧
        calcSize (readWidth argv) (readHeight argv) (toU32 iImage.cols) (toU32 iImage.rows)
          = none ∧
        Cli.main env argv = ⟨[.imread (argv.getD 1 "")], .undefined⟩) ∨
      (∃ (iImage : Mat) (oW oH : ℕ), env.imread (argv.getD 1 "") = some iImage ∧
        calcSize (readWidth argv) (readHeight argv) (toU32 iImage.cols) (toU32 iImage.rows)
          = some (oW, oH) ∧
        matFits env .oImage oH oW = false ∧
        Cli.main env argv = ⟨[.imread (argv.getD 1 "")], .terminated⟩)) := by
  constructor
  · intro iImage oW oH hargc hreq himg hsize hfits
    rw [Cli.cli_main_of_size env argv iImage oW oH hargc hreq himg hsize hfits]
    simp
  · intro hno
    by_cases hargc : argv.length < 2 ∨ 5 < argv.length
    · left
      unfold Cli.main
      rw [if_pos hargc]
    · by_cases hreq : readWidth argv = 0 ∧ readHeight argv = 0
      · right; left
        unfold Cli.main
        rw [if_neg hargc]
        simp only [if_pos hreq]
      · cases himg : env.imread (argv.getD 1 "") with
        | none =>
          right; right; left
          unfold Cli.main
          rw [if_neg hargc]
          simp only [if_neg hreq, himg]
        | some iImage =>
          cases hsize : calcSize (readWidth argv) (readHeight argv) (toU32 iImage.cols)
              (toU32 iImage.rows) with
          | none =>
            right; right; right; left
            refine ⟨iImage, rfl, hsize, ?_⟩
            unfold Cli.main
            rw [if_neg hargc]
            simp only [if_neg hreq, himg, hsize]
          | some wh =>
            obtain ⟨oW, oH⟩ := wh
            right; right; right; right
            cases hfits : matFits env .oImage oH oW with
            | false =>
              exact ⟨iImage, oW, oH, rfl, hsize, hfits,
                Cli.cli_main_of_no_fit env argv iImage oW oH hargc hreq himg hsize hfits⟩
            | true =>
              exfalso
              have hm := Cli.cli_main_of_size env argv iImage oW oH hargc hreq himg hsize hfits
              apply hno ⟨oW, oH, toU32 iImage.cols, toU32 iImage.rows,
                calcPatch (toU32 iImage.cols) oW, calcPatch (toU32 iImage.rows) oH,
                Cli.readLambda argv⟩ .oImage
              rw [hm]
              simp

/-- C2 amended, at the enlarging request `dpid a.png 256` on a 100 x 100 image. -/
theorem no_scale_validation_witness :
    (matFits (oneImage "a.png" 100 100) .oImage 256 256 = true ∧
      (calcPatch (toU32 100) 256).ltOne) ∧
    Event.alloc .oImage 256 256
      ∈ (Cli.main (oneImage "a.png" 100 100) ["dpid", "a.png", "256"]).trace ∧
    Event.run ⟨256, 256, toU32 100, toU32 100, calcPatch (toU32 100) 256,
        calcPatch (toU32 100) 256, Cli.readLambda ["dpid", "a.png", "256"]⟩ .oImage
      ∈ (Cli.main (oneImage "a.png" 100 100) ["dpid", "a.png", "256"]).trace :=
  ⟨⟨by decide!, by decide!⟩,
    (no_scale_validation (oneImage "a.png" 100 100) ["dpid", "a.png", "256"]).1
      ⟨100, 100⟩ 256 256 (by decide!) (by decide!) (by decide!) (by decide!) (by decide!)⟩

/-- C4 fails: `dpid a.png 0 1` on a 100 x 1000 image passes the both-zero check, the width
derived from the aspect ratio is `round(0.1) = 0`, and `run` is invoked with
`oWidth = 0` and the patch width `100 / 0.0f = +inf`. -/
theorem derived_width_zero_reaches_run :
    Cli.main (oneImage "a.png" 100 1000) ["dpid", "a.png", "0", "1"] =
      ⟨[.imread "a.png", .alloc .oImage 1 0,
        .run ⟨0, 1, 100, 1000, .inf false, .fin 1000, .fin 1⟩ .oImage,
        .imwrite "a.png" 0 1 (.lambda (.fin 1)) .oImage], .exit 0⟩ ∧
    Gui.main (oneImage "a.png" 100 1000) [⟨50, 50, 0⟩] ["dpid", "a.png", "0", "1"] =
      ⟨[.imread "a.png", .alloc .oImage1 1 0, .alloc .oImage2 1 0, .alloc .oImage3 1 0,
        .alloc .display 1000 1000, .namedWindow, .createTrackbar "lambda1" 100,
        .createTrackbar "lambda2" 100, .imshow .iImage,
        .run ⟨0, 1, 100, 1000, .inf false, .fin 1000, .fin (1 / 2)⟩ .oImage1,
        .resize .oImage1 .display false, .imshow .display], .waiting⟩ := by
  decide!


theorem calcSize_of_ne_zero (w h iW iH : ℕ) (hw : w ≠ 0) (hh : h ≠ 0) :
    calcSize w h iW iH = some (w, h) := by
  unfold calcSize
  simp [hw, hh]

theorem calcSize_keeps (w h iW iH w' h' : ℕ) (hs : calcSize w h iW iH = some (w', h')) :
    (w ≠ 0 → w' = w) ∧ (h ≠ 0 → h' = h) := by
  unfold calcSize at hs
  split at hs
  · simp at hs
  · rename_i w1 hw1
    split at hs
    · simp at hs
    · rename_i h1 hh1
      simp only [Option.some.injEq, Prod.mk.injEq] at hs
      obtain ⟨rfl, rfl⟩ := hs
      constructor
      · intro hw
        rw [if_neg hw] at hw1
        exact (Option.some.inj hw1).symm
      · intro hh
        rw [if_neg hh] at hh1
        exact (Option.some.inj hh1).symm

/-- C5: geometry resolution leaves nonzero requested dimensions unchanged.  With both
nonzero the resolved pair is the requested pair whatever the source size, a single nonzero
dimension is never altered, and the parameter block handed to `run` carries the requested
value. -/
theorem nonzero_dims_kept (env : Env) (argv : List String) :
    (∀ w h iW iH : ℕ, w ≠ 0 → h ≠ 0 → calcSize w h iW iH = some (w, h)) ∧
    (∀ w h iW iH w' h' : ℕ, calcSize w h iW iH = some (w', h') →
      (w ≠ 0 → w' = w) ∧ (h ≠ 0 → h' = h)) ∧
    (∀ (i : Params) (out : Img), Event.run i out ∈ (Cli.main env argv).trace →
      (readWidth argv ≠ 0 → i.oWidth = readWidth argv) ∧
      (readHeight argv ≠ 0 → i.oHeight = readHeight argv)) := by
  refine ⟨calcSize_of_ne_zero, calcSize_keeps, ?_⟩
  intro i out h
  obtain ⟨iImage, -, -, hsize, -⟩ := Cli.cli_run_mem env argv i out h
  exact calcSize_keeps _ _ _ _ _ _ hsize

/-- C5, at the request `dpid a.png 128 128` on a 1000 x 500 image: no aspect-ratio
correction takes place. -/
theorem nonzero_dims_kept_witness :
    ((128 : ℕ) ≠ 0 ∧ calcSize 128 128 1000 500 = some (128, 128)) ∧
    Event.run ⟨128, 128, 1000, 500, .fin (125 / 16), .fin (125 / 32), .fin 1⟩ .oImage
      ∈ (Cli.main (oneImage "a.png" 1000 500) ["dpid", "a.png", "128", "128"]).trace ∧
    readWidth ["dpid", "a.png", "128", "128"] ≠ 0 ∧
    readHeight ["dpid", "a.png", "128", "128"] ≠ 0 ∧
    128 = readWidth ["dpid", "a.png", "128", "128"] ∧
    128 = readHeight ["dpid", "a.png", "128", "128"] :=
  ⟨⟨by decide,
      (nonzero_dims_kept (oneImage "a.png" 1000 500) ["dpid", "a.png", "128", "128"]).1
        128 128 1000 500 (by decide) (by decide)⟩,
    by decide!, by decide!, by decide!,
    ((nonzero_dims_kept (oneImage "a.png" 1000 500) ["dpid", "a.png", "128", "128"]).2.2
      ⟨128, 128, 1000, 500, .fin (125 / 16), .fin (125 / 32), .fin 1⟩ .oImage
      (by decide!)).1 (by decide!),
    ((nonzero_dims_kept (oneImage "a.png" 1000 500) ["dpid", "a.png", "128", "128"]).2.2
      ⟨128, 128, 1000, 500, .fin (125 / 16), .fin (125 / 32), .fin 1⟩ .oImage
      (by decide!)).2 (by decide!)⟩

/-- C7 fails: `dpid a.png 128 0 -1` hands `lambda = -1` to `run`. -/
theorem negative_lambda_reaches_run :
    Event.run ⟨128, 128, 1000, 1000, .fin (125 / 16), .fin (125 / 16), .fin (-1)⟩ .oImage
      ∈ (Cli.main (oneImage "a.png" 1000 1000) ["dpid", "a.png", "128", "0", "-1"]).trace ∧
    ¬ (Fp.fin (-1)).nonneg := by
  decide!

/-- C7, amended: the command-line program hands to `run` the default `1.0` or the
`float` value of its fourth argument, unchecked, so `lambda >= 0` holds when the argument
is omitted or parses to a value `>= 0`; the GUI program hands over `pos / 100`, which is
`>= 0` for every slider position `pos >= 0`, whatever the max-lambda argument. -/
theorem lambda_nonneg_of_input (env : Env) (keys : List Gui.KeyPress)
    (argv : List String) :
    (∀ (i : Params) (out : Img), Event.run i out ∈ (Cli.main env argv).trace →
      i.lambda = (if argv.length < 5 then Fp.fin 1 else (atof (argv.getD 4 "")).toF32) ∧
      (argv.length < 5 ∨ (atof (argv.getD 4 "")).nonneg → i.lambda.nonneg)) ∧
    (∀ (i : Params) (out : Img), Event.run i out ∈ (Gui.main env keys argv).trace →
      (∃ k ∈ keys, ∃ pos, (pos = k.lambda1 ∨ pos = k.lambda2) ∧
        i.lambda = Gui.sliderLambda pos) ∧
      ((∀ k ∈ keys, 0 ≤ k.lambda1 ∧ 0 ≤ k.lambda2) → i.lambda.nonneg)) := by
  constructor
  · intro i out h
    obtain ⟨iImage, -, -, -, -, -, -, -, hl⟩ := Cli.cli_run_mem env argv i out h
    refine ⟨hl, ?_⟩
    intro hin
    rw [hl]
    unfold Cli.readLambda
    rcases hin with hlen | hpos
    · rw [if_pos hlen]; simp [Fp.nonneg]
    · split
      · simp [Fp.nonneg]
      · exact toF32_nonneg_of _ hpos
  · intro i out h
    obtain ⟨iImage, -, -, -, -, -, -, -, k, hk, pos, hp, hl⟩ :=
      Gui.gui_run_mem env keys argv i out h
    refine ⟨⟨k, hk, pos, hp, hl⟩, ?_⟩
    intro hkeys
    rw [hl]
    apply sliderLambda_nonneg
    rcases hp with rfl | rfl
    · exact (hkeys k hk).1
    · exact (hkeys k hk).2

/-- C7 amended, at `dpid a.png 128 0 0.5` and at the slider position 50. -/
theorem lambda_nonneg_of_input_witness :
    (Event.run ⟨128, 128, 1000, 1000, .fin (125 / 16), .fin (125 / 16), .fin (1 / 2)⟩ .oImage
        ∈ (Cli.main (oneImage "a.png" 1000 1000) ["dpid", "a.png", "128", "0", "0.5"]).trace ∧
      (atof "0.5").nonneg ∧ (Fp.fin (1 / 2)).nonneg) ∧
    (Event.run ⟨128, 128, 1000, 1000, .fin (125 / 16), .fin (125 / 16), .fin (1 / 2)⟩ .oImage1
        ∈ (Gui.main (oneImage "a.png" 1000 1000) [⟨50, 50, 0⟩] ["dpid", "a.png", "128"]).trace ∧
      ((0 : ℤ) ≤ 50 ∧ (0 : ℤ) ≤ 0) ∧ (Fp.fin (1 / 2)).nonneg) :=
  ⟨⟨by decide!, by decide!,
      ((lambda_nonneg_of_input (oneImage "a.png" 1000 1000) []
        ["dpid", "a.png", "128", "0", "0.5"]).1
        ⟨128, 128, 1000, 1000, .fin (125 / 16), .fin (125 / 16), .fin (1 / 2)⟩ .oImage
        (by decide!)).2 (Or.inr (by decide!))⟩,
    ⟨by decide!, by decide,
      ((lambda_nonneg_of_input (oneImage "a.png" 1000 1000) [⟨50, 50, 0⟩]
        ["dpid", "a.png", "128"]).2
        ⟨128, 128, 1000, 1000, .fin (125 / 16), .fin (125 / 16), .fin (1 / 2)⟩ .oImage1
        (by decide!)).2 (by decide)⟩⟩

/-- The command-line program hands to `run` what it reads from its arguments. -/
theorem Cli.handsToRun_read (env : Env) (argv : List String)
    (hargc : ¬ (argv.length < 2 ∨ 5 < argv.length)) :
    Cli.handsToRun env argv (argv.getD 1 "") (readWidth argv) (readHeight argv)
      (Cli.readLambda argv) := by
  intro iImage oW oH himg hreq hsize hfits
  rw [Cli.cli_main_of_size env argv iImage oW oH hargc hreq himg hsize hfits]
  constructor
  · simp
  · intro i out hmem
    simp at hmem
    exact hmem

/-- C8: the command line `<input-path> [output-width=128] [output-height=0] [lambda=1.0]`.
With 1 to 4 user arguments the program hands to `run` the request made of the path, of the
width (128 when omitted), of the height (0 when omitted) and of lambda (1.0 when omitted),
each supplied argument setting its own parameter and no other: `run` is invoked once, with
the sizes resolved from that width and height and with that lambda.  With no user argument
or more than 4 the program prints the usage and terminates with status 1. -/
theorem cli_arguments (env : Env) (prog name w h l : String) :
    Cli.handsToRun env [prog, name] name 128 0 (Fp.fin 1) ∧
    Cli.handsToRun env [prog, name, w] name (toU32 (atoi w)) 0 (Fp.fin 1) ∧
    Cli.handsToRun env [prog, name, w, h] name (toU32 (atoi w)) (toU32 (atoi h)) (Fp.fin 1) ∧
    Cli.handsToRun env [prog, name, w, h, l] name (toU32 (atoi w)) (toU32 (atoi h))
      (atof l).toF32 ∧
    Cli.main env [] = ⟨[.usage], .exit 1⟩ ∧
    Cli.main env [prog] = ⟨[.usage], .exit 1⟩ ∧
    (∀ argv : List String, 5 < argv.length → Cli.main env argv = ⟨[.usage], .exit 1⟩) := by
  refine ⟨?_, ?_, ?_, ?_, rfl, rfl, ?_⟩
  · exact Cli.handsToRun_read env [prog, name] (by simp)
  · exact Cli.handsToRun_read env [prog, name, w] (by simp)
  · exact Cli.handsToRun_read env [prog, name, w, h] (by simp)
  · exact Cli.handsToRun_read env [prog, name, w, h, l] (by simp)
  · intro argv hlen
    unfold Cli.main
    rw [if_pos (Or.inr hlen)]

/-- C8, at `dpid a.png 200 100 0.5` on a 1000 x 500 image, where all three optional
arguments reach `run`, and at the six-word command line `dpid a.png 1 2 3 4`. -/
theorem cli_arguments_witness :
    ((oneImage "a.png" 1000 500).imread "a.png" = some ⟨1000, 500⟩ ∧
      ¬ (toU32 (atoi "200") = 0 ∧ toU32 (atoi "100") = 0) ∧
      calcSize (toU32 (atoi "200")) (toU32 (atoi "100")) (toU32 1000) (toU32 500)
        = some (200, 100) ∧
      matFits (oneImage "a.png" 1000 500) .oImage 100 200 = true) ∧
    Event.run ⟨200, 100, toU32 1000, toU32 500, calcPatch (toU32 1000) 200,
        calcPatch (toU32 500) 100, (atof "0.5").toF32⟩ .oImage
      ∈ (Cli.main (oneImage "a.png" 1000 500) ["dpid", "a.png", "200", "100", "0.5"]).trace ∧
    Cli.main (oneImage "a.png" 1000 500) ["dpid", "a.png", "200", "100", "0.5"] =
      ⟨[.imread "a.png", .alloc .oImage 100 200,
        .run ⟨200, 100, 1000, 500, .fin 5, .fin 5, .fin (1 / 2)⟩ .oImage,
        .imwrite "a.png" 200 100 (.lambda (.fin (1 / 2))) .oImage], .exit 0⟩ ∧
    Cli.main (oneImage "a.png" 640 480) ["dpid", "a.png", "1", "2", "3", "4"]
      = ⟨[.usage], .exit 1⟩ :=
  ⟨⟨by decide!, by decide!, by decide!, by decide!⟩,
    ((cli_arguments (oneImage "a.png" 1000 500) "dpid" "a.png" "200" "100" "0.5").2.2.2.1
      ⟨1000, 500⟩ 200 100 (by decide!) (by decide!) (by decide!) (by decide!)).1,
    by decide!,
    (cli_arguments (oneImage "a.png" 640 480) "dpid" "a.png" "1" "2" "3").2.2.2.2.2.2
      ["dpid", "a.png", "1", "2", "3", "4"] (by decide)⟩


theorem calcSize_within (w h iW iH : ℕ) (hiW0 : 0 < iW) (hiH0 : 0 < iH) (hiW : iW < 2 ^ 32)
    (hiH : iH < 2 ^ 32)
    (hone : (w = 0 ∧ h ≠ 0 ∧ h ≤ iH) ∨ (w ≠ 0 ∧ h = 0 ∧ w ≤ iW)) :
    ∃ w' h', calcSize w h iW iH = some (w', h') ∧ w' ≤ iW ∧ h' ≤ iH := by
  rcases hone with ⟨hw, hh, hle⟩ | ⟨hw, hh, hle⟩
  · obtain ⟨r, hr, hrle⟩ := deriveDim_le h iH iW hle hiH0 hiH hiW
    refine ⟨r, h, ?_, hrle, hle⟩
    unfold calcSize
    simp [hw, hh, hr]
  · obtain ⟨r, hr, hrle⟩ := deriveDim_le w iW iH hle hiW0 hiW hiH
    refine ⟨w, r, ?_, hle, hrle⟩
    unfold calcSize
    simp [hw, hh, hr]

/-- C10: when exactly one output dimension is 0 and the supplied one does not exceed the
source on its axis, the resolution is defined and the derived dimension does not exceed
the source on its own axis; so the parameter block that either program hands to `run` has
`oWidth <= iWidth` and `oHeight <= iHeight`. -/
theorem derived_dim_within_source (env : Env) (keys : List Gui.KeyPress)
    (argv : List String) :
    (∀ w h iW iH : ℕ, 0 < iW → 0 < iH → iW < 2 ^ 32 → iH < 2 ^ 32 →
      (w = 0 ∧ h ≠ 0 ∧ h ≤ iH) ∨ (w ≠ 0 ∧ h = 0 ∧ w ≤ iW) →
      ∃ w' h', calcSize w h iW iH = some (w', h') ∧ w' ≤ iW ∧ h' ≤ iH) ∧
    (∀ (i : Params) (out : Img),
      Event.run i out ∈ (Cli.main env argv).trace ∨
        Event.run i out ∈ (Gui.main env keys argv).trace →
      0 < i.iWidth → 0 < i.iHeight →
      (readWidth argv = 0 ∧ readHeight argv ≠ 0 ∧ readHeight argv ≤ i.iHeight) ∨
        (readWidth argv ≠ 0 ∧ readHeight argv = 0 ∧ readWidth argv ≤ i.iWidth) →
      i.oWidth ≤ i.iWidth ∧ i.oHeight ≤ i.iHeight) := by
  refine ⟨calcSize_within, ?_⟩
  intro i out hrun hiW0 hiH0 hone
  have key : ∃ iImage : Mat,
      calcSize (readWidth argv) (readHeight argv) (toU32 iImage.cols) (toU32 iImage.rows)
        = some (i.oWidth, i.oHeight) ∧
      i.iWidth = toU32 iImage.cols ∧ i.iHeight = toU32 iImage.rows := by
    rcases hrun with h | h
    · obtain ⟨iImage, -, -, hsize, hiw, hih, -⟩ := Cli.cli_run_mem env argv i out h
      exact ⟨iImage, hsize, hiw, hih⟩
    · obtain ⟨iImage, -, -, hsize, hiw, hih, -⟩ := Gui.gui_run_mem env keys argv i out h
      exact ⟨iImage, hsize, hiw, hih⟩
  obtain ⟨iImage, hsize, hiw, hih⟩ := key
  rw [← hiw, ← hih] at hsize
  obtain ⟨w', h', hs, hw', hh'⟩ := calcSize_within _ _ _ _ hiW0 hiH0
    (by rw [hiw]; exact toU32_lt _) (by rw [hih]; exact toU32_lt _) hone
  rw [hsize] at hs
  simp only [Option.some.injEq, Prod.mk.injEq] at hs
  obtain ⟨rfl, rfl⟩ := hs
  exact ⟨hw', hh'⟩

/-- C10, at the request `dpid a.png 0 7` on a 45 x 10 image: the derived width is 31. -/
theorem derived_dim_within_source_witness :
    (Event.run ⟨31, 7, 45, 10, .fin (3044253 / 2097152), .fin (5991863 / 4194304), .fin 1⟩
        .oImage ∈ (Cli.main (oneImage "a.png" 45 10) ["dpid", "a.png", "0", "7"]).trace ∧
      readWidth ["dpid", "a.png", "0", "7"] = 0 ∧ readHeight ["dpid", "a.png", "0", "7"] ≠ 0 ∧
      readHeight ["dpid", "a.png", "0", "7"] ≤ 10) ∧
    (31 ≤ 45 ∧ 7 ≤ 10) ∧
    ∃ w' h', calcSize 0 7 45 10 = some (w', h') ∧ w' ≤ 45 ∧ h' ≤ 10 :=
  ⟨⟨by decide!, by decide!, by decide!, by decide!⟩,
    (derived_dim_within_source (oneImage "a.png" 45 10) [] ["dpid", "a.png", "0", "7"]).2
      ⟨31, 7, 45, 10, .fin (3044253 / 2097152), .fin (5991863 / 4194304), .fin 1⟩ .oImage
      (Or.inl (by decide!)) (by decide) (by decide)
      (Or.inl ⟨by decide!, by decide!, by decide!⟩),
    (derived_dim_within_source (oneImage "a.png" 45 10) [] ["dpid", "a.png", "0", "7"]).1
      0 7 45 10 (by decide) (by decide) (by decide) (by decide) (by decide)⟩


/-- C3 fails: for `dpid a.png 0 7` on a 45 x 10 image the exact value `7 / 10 * 45` is
31.5, which rounds to 32, but the `double` product is `31.499999999999996...` and the
program resolves the width to 31. -/
theorem derived_width_misrounded :
    specDerive 7 10 45 = 32 ∧
    Fp.mul binary64 (Fp.div binary64 (toF64 7) (toF64 10)) (toF64 45)
      = Fp.fin (8866461766385663 / 281474976710656) ∧
    calcSize 0 7 45 10 = some (31, 7) ∧
    Cli.main (oneImage "a.png" 45 10) ["dpid", "a.png", "0", "7"] =
      ⟨[.imread "a.png", .alloc .oImage 7 31,
        .run ⟨31, 7, 45, 10, .fin (3044253 / 2097152), .fin (5991863 / 4194304), .fin 1⟩
          .oImage,
        .imwrite "a.png" 31 7 (.lambda (.fin 1)) .oImage], .exit 0⟩ := by
  decide!

/-- C3, amended: for a source of positive size and a request with exactly one dimension 0,
when `known * sourceDim_of_other_axis` is at most `2 ^ 50` and the exactly rounded value
fits `uint32_t`, the resolution is defined, keeps the supplied dimension, and the derived
one equals `round(known / sourceDim_of_known_axis * sourceDim_of_other_axis)` unless the
exact value is a half-integer, where it is that value or the integer below it.  The
parameter block either program hands to `run` carries these dimensions. -/
theorem derived_dim_rounds_up_to_tie (env : Env)
    (keys : List Gui.KeyPress) (argv : List String) :
    (∀ w h iW iH : ℕ, 0 < iW → 0 < iH → iW < 2 ^ 32 → iH < 2 ^ 32 →
      (w = 0 → 0 < h → h * iW ≤ 2 ^ 50 → specDerive h iH iW < 2 ^ 32 →
        ∃ r, calcSize w h iW iH = some (r, h) ∧ roundsUpToTie r h iH iW) ∧
      (h = 0 → 0 < w → w * iH ≤ 2 ^ 50 → specDerive w iW iH < 2 ^ 32 →
        ∃ r, calcSize w h iW iH = some (w, r) ∧ roundsUpToTie r w iW iH)) ∧
    (∀ (i : Params) (out : Img),
      Event.run i out ∈ (Cli.main env argv).trace ∨
        Event.run i out ∈ (Gui.main env keys argv).trace →
      0 < i.iWidth → 0 < i.iHeight →
      (readWidth argv = 0 → 0 < readHeight argv → readHeight argv * i.iWidth ≤ 2 ^ 50 →
        specDerive (readHeight argv) i.iHeight i.iWidth < 2 ^ 32 →
        i.oHeight = readHeight argv ∧
        roundsUpToTie i.oWidth (readHeight argv) i.iHeight i.iWidth) ∧
      (readHeight argv = 0 → 0 < readWidth argv → readWidth argv * i.iHeight ≤ 2 ^ 50 →
        specDerive (readWidth argv) i.iWidth i.iHeight < 2 ^ 32 →
        i.oWidth = readWidth argv ∧
        roundsUpToTie i.oHeight (readWidth argv) i.iWidth i.iHeight)) := by
  refine ⟨calcSize_derives, ?_⟩
  intro i out hrun hiW0 hiH0
  have key : ∃ iImage : Mat,
      calcSize (readWidth argv) (readHeight argv) (toU32 iImage.cols) (toU32 iImage.rows)
        = some (i.oWidth, i.oHeight) ∧
      i.iWidth = toU32 iImage.cols ∧ i.iHeight = toU32 iImage.rows := by
    rcases hrun with h | h
    · obtain ⟨iImage, -, -, hsize, hiw, hih, -⟩ := Cli.cli_run_mem env argv i out h
      exact ⟨iImage, hsize, hiw, hih⟩
    · obtain ⟨iImage, -, -, hsize, hiw, hih, -⟩ := Gui.gui_run_mem env keys argv i out h
      exact ⟨iImage, hsize, hiw, hih⟩
  obtain ⟨iImage, hsize, hiw, hih⟩ := key
  rw [← hiw, ← hih] at hsize
  have hd := calcSize_derives (readWidth argv) (readHeight argv) i.iWidth i.iHeight hiW0 hiH0
    (by rw [hiw]; exact toU32_lt _) (by rw [hih]; exact toU32_lt _)
  constructor
  · intro hw hh hprod hfit
    obtain ⟨r, hr, hrt⟩ := hd.1 hw hh hprod hfit
    rw [hsize] at hr
    simp only [Option.some.injEq, Prod.mk.injEq] at hr
    obtain ⟨h1, h2⟩ := hr
    rw [h1, h2]
    exact ⟨rfl, hrt⟩
  · intro hh hw hprod hfit
    obtain ⟨r, hr, hrt⟩ := hd.2 hh hw hprod hfit
    rw [hsize] at hr
    simp only [Option.some.injEq, Prod.mk.injEq] at hr
    obtain ⟨h1, h2⟩ := hr
    rw [h1, h2]
    exact ⟨rfl, hrt⟩

/-- C3 amended, at the request `dpid a.png 0 256` on a 1920 x 1080 image. -/
theorem derived_dim_rounds_up_to_tie_witness :
    (0 < 1920 ∧ 0 < 1080 ∧ 1920 < 2 ^ 32 ∧ 1080 < 2 ^ 32 ∧ 0 < 256 ∧
      256 * 1920 ≤ 2 ^ 50 ∧ specDerive 256 1080 1920 < 2 ^ 32) ∧
    ∃ r, calcSize 0 256 1920 1080 = some (r, 256) ∧ roundsUpToTie r 256 1080 1920 :=
  ⟨⟨by decide, by decide, by decide, by decide, by decide, by decide, by decide!⟩,
    ((derived_dim_rounds_up_to_tie (oneImage "a.png" 1920 1080) []
      ["dpid", "a.png", "0", "256"]).1 0 256 1920 1080 (by decide) (by decide) (by decide)
      (by decide)).1 rfl (by decide) (by decide) (by decide!)⟩


/-- C6 fails: for `dpid a.png 3 3` on a 10 x 10 image the patch size handed to `run` is
the `float` nearest to `10 / 3`, namely `13981013 / 4194304`; three such patches end at
`41943039 / 4194304 < 10`, so the patches do not tile the source exactly. -/
theorem patches_miss_source_edge :
    Cli.main (oneImage "a.png" 10 10) ["dpid", "a.png", "3", "3"] =
      ⟨[.imread "a.png", .alloc .oImage 3 3,
        .run ⟨3, 3, 10, 10, .fin (13981013 / 4194304), .fin (13981013 / 4194304), .fin 1⟩
          .oImage,
        .imwrite "a.png" 3 3 (.lambda (.fin 1)) .oImage], .exit 0⟩ ∧
    patchHi (13981013 / 4194304) 2 = 41943039 / 4194304 ∧
    ¬ tilesSource ⟨3, 3, 10, 10, .fin (13981013 / 4194304), .fin (13981013 / 4194304),
      .fin 1⟩ := by
  refine ⟨by decide!, by decide!, ?_⟩
  rintro ⟨pw, ph, hpw, -, -, hcover⟩
  simp only [Fp.fin.injEq] at hpw
  have h := hcover.2.1
  rw [← hpw] at h
  norm_num at h

/-- C6, amended: the patch sizes are `float` values.  For every parameter block with
positive dimensions that either program hands to `run`, the patch sizes are finite and
positive and distinct patches are disjoint; when moreover all four dimensions are below
`2 ^ 24` and the exact quotients `iWidth / oWidth` and `iHeight / oHeight` are `float`
values (as when the output dimension divides the source dimension), the patch sizes are
these quotients and the patches tile the source exactly: the last patch ends at
`oWidth * pWidth = iWidth` and `oHeight * pHeight = iHeight`, and the areas sum to
`iWidth * iHeight`. -/
theorem patches_tile_when_quotient_is_float (env : Env)
    (keys : List Gui.KeyPress) (argv : List String) :
    (∀ (i : Params) (out : Img),
      Event.run i out ∈ (Cli.main env argv).trace ∨
        Event.run i out ∈ (Gui.main env keys argv).trace →
      0 < i.iWidth → 0 < i.iHeight → 0 < i.oWidth → 0 < i.oHeight →
      patchesApart i ∧
      (i.iWidth < 2 ^ 24 → i.iHeight < 2 ^ 24 → i.oWidth < 2 ^ 24 → i.oHeight < 2 ^ 24 →
        quotientIsFloat i.iWidth i.oWidth → quotientIsFloat i.iHeight i.oHeight →
        tilesSource i)) ∧
    (∀ inDim outDim : ℕ, 0 < outDim → inDim < 2 ^ 24 → outDim ∣ inDim →
      quotientIsFloat inDim outDim) := by
  refine ⟨?_, quotientIsFloat_of_dvd⟩
  intro i out hrun hiW hiH hoW hoH
  have key : ∃ iImage : Mat,
      calcSize (readWidth argv) (readHeight argv) (toU32 iImage.cols) (toU32 iImage.rows)
        = some (i.oWidth, i.oHeight) ∧
      i.iWidth = toU32 iImage.cols ∧ i.iHeight = toU32 iImage.rows ∧
      i.pWidth = calcPatch i.iWidth i.oWidth ∧ i.pHeight = calcPatch i.iHeight i.oHeight := by
    rcases hrun with h | h
    · obtain ⟨iImage, -, -, hsize, hiw, hih, hp1, hp2, -⟩ := Cli.cli_run_mem env argv i out h
      exact ⟨iImage, hsize, hiw, hih, hp1, hp2⟩
    · obtain ⟨iImage, -, -, hsize, hiw, hih, hp1, hp2, -⟩ :=
        Gui.gui_run_mem env keys argv i out h
      exact ⟨iImage, hsize, hiw, hih, hp1, hp2⟩
  obtain ⟨iImage, hsize, hiw, hih, hp1, hp2⟩ := key
  obtain ⟨ho1, ho2⟩ := calcSize_lt _ _ _ _ _ _ (readWidth_lt argv) (readHeight_lt argv) hsize
  exact patches_of_params i hp1 hp2 hiW hiH hoW hoH (by rw [hiw]; exact toU32_lt _)
    (by rw [hih]; exact toU32_lt _) ho1 ho2

/-- C6 amended, at `dpid a.png 480 270` on a 1920 x 1080 image (patch size 4 x 4). -/
theorem patches_tile_when_quotient_is_float_witness :
    (Event.run ⟨480, 270, 1920, 1080, .fin 4, .fin 4, .fin 1⟩ .oImage
        ∈ (Cli.main (oneImage "a.png" 1920 1080) ["dpid", "a.png", "480", "270"]).trace ∧
      quotientIsFloat 1920 480 ∧ quotientIsFloat 1080 270) ∧
    patchesApart ⟨480, 270, 1920, 1080, .fin 4, .fin 4, .fin 1⟩ ∧
    tilesSource ⟨480, 270, 1920, 1080, .fin 4, .fin 4, .fin 1⟩ :=
  ⟨⟨by decide!, by decide!, by decide!⟩,
    ((patches_tile_when_quotient_is_float (oneImage "a.png" 1920 1080) []
      ["dpid", "a.png", "480", "270"]).1 ⟨480, 270, 1920, 1080, .fin 4, .fin 4, .fin 1⟩ .oImage
      (Or.inl (by decide!)) (by decide) (by decide) (by decide) (by decide)).1,
    ((patches_tile_when_quotient_is_float (oneImage "a.png" 1920 1080) []
      ["dpid", "a.png", "480", "270"]).1 ⟨480, 270, 1920, 1080, .fin 4, .fin 4, .fin 1⟩ .oImage
      (Or.inl (by decide!)) (by decide) (by decide) (by decide) (by decide)).2
      (by decide) (by decide) (by decide) (by decide) (by decide!) (by decide!)⟩


theorem importance_zero (mean : Color) (l : List (Color × ℝ)) : importance 0 mean l = l := by
  unfold importance
  simp

theorem patchSamples_blackWhiteBlack :
    patchSamples ⟨1, 1, 3, 1, 3, 1, 0⟩ blackWhiteBlack 0 0
      = [(fun _ => 0, 1), (fun _ => 255, 1), (fun _ => 0, 1)] := by
  simp [patchSamples, overlapWeight, overlap1, patchBounds, List.range_succ, blackWhiteBlack]
  norm_num

/-- The scenario of section 8: the box filter reduces black, white, black to the
arithmetic mean, 85 in every channel. -/
theorem boxFilter_blackWhiteBlack (ch : Fin 3) :
    (boxFilter ⟨1, 1, 3, 1, 3, 1, 0⟩ blackWhiteBlack).px 0 0 ch = 85 := by
  have hm : guideMean [((fun _ => 0 : Color), (1 : ℝ)), (fun _ => 255, 1), (fun _ => 0, 1)] ch
      = 85 := by
    simp [guideMean, weightedSum, totalWeight]
    norm_num
  have hq : quantize 85 = 85 := by
    unfold quantize
    have : round (85 : ℝ) = 85 := by simp
    rw [this]
    norm_num
  unfold boxFilter
  simp only [Nat.lt_one_iff, and_self, if_true]
  rw [patchSamples_blackWhiteBlack, hm, hq]

/-- C9: with `lambda = 0` the image produced by `run` equals, pixel for pixel, the plain
area-weighted box-filter reduction: every output pixel is the overlap-weighted mean colour
of its patch. -/
theorem run_lambda_zero_eq_boxFilter (tol : ℝ) (p : SpecParams) (src : Image)
    (h : p.lambda = 0) : run tol p src = boxFilter p src := by
  unfold run boxFilter
  congr 1
  funext ox oy
  split
  · funext ch
    unfold outputPixel
    rw [h, importance_zero]
    unfold reduce
    split
    · rfl
    · rfl
  · rfl

/-- C9, at the 3 x 1 image black, white, black reduced to 1 x 1: both reductions give the
arithmetic mean 85. -/
theorem run_lambda_zero_eq_boxFilter_witness :
    (⟨1, 1, 3, 1, 3, 1, 0⟩ : SpecParams).lambda = 0 ∧
    run 0 ⟨1, 1, 3, 1, 3, 1, 0⟩ blackWhiteBlack = boxFilter ⟨1, 1, 3, 1, 3, 1, 0⟩ blackWhiteBlack ∧
    (boxFilter ⟨1, 1, 3, 1, 3, 1, 0⟩ blackWhiteBlack).px 0 0 = fun _ => 85 :=
  ⟨rfl, run_lambda_zero_eq_boxFilter 0 ⟨1, 1, 3, 1, 3, 1, 0⟩ blackWhiteBlack rfl,
    funext boxFilter_blackWhiteBlack⟩

end Dpid
